import Mathlib

/-!
Shallow embedding of the clippy-uppy pipeline orchestrator
(`cloud-run/start_pipeline/main.py` and the Getty services), together with
proofs about the deep-merge state accumulator, the input normalizer, the
stage-graph executor, the retry machinery, the token cache and the paginated
catalog search.

JSON values are modelled by `JVal`; Python `dict`s are association lists
`List (String × JVal)` (insertion-ordered, unique keys in well-formed
values, exactly as CPython dicts).  Fallible code returns `Except HTTPError`.
-/

set_option maxHeartbeats 1000000

namespace ClippyUppy

/-- A JSON value as produced by `request.json()` in the services. -/
inductive JVal where
  | str (s : String)
  | num (n : Int)
  | bool (b : Bool)
  | null
  | arr (xs : List JVal)
  | dict (kvs : List (String × JVal))
  deriving Repr

/-- Python dict: insertion-ordered association list. -/
abbrev Dict := List (String × JVal)

/-- A raised `fastapi.HTTPException` (status code and detail string). -/
structure HTTPError where
  status : Nat
  detail : String
  deriving Repr, DecidableEq

/-- `d.get(k)` / `d[k]` lookup on a Python dict (first matching key). -/
def lookup (kvs : Dict) (k : String) : Option JVal :=
  match kvs with
  | [] => none
  | (k', v) :: rest => if k' = k then some v else lookup rest k

/-- `d[k] = v` on a Python dict: replace in place if the key exists,
    otherwise append at the end (CPython insertion-order semantics). -/
def setKey (kvs : Dict) (k : String) (v : JVal) : Dict :=
  match kvs with
  | [] => [(k, v)]
  | (k', v') :: rest => if k' = k then (k', v) :: rest else (k', v') :: setKey rest k v

/-- The keys of a dict, in order. -/
abbrev keys (kvs : Dict) : List String := kvs.map Prod.fst

mutual

/-- `deep_merge` from `start_pipeline/main.py`:
    start from a copy of `a` and fold over `b`'s items; when both sides hold
    dicts at a key, merge recursively, otherwise `b`'s value overwrites. -/
def deep_merge (a : Dict) : Dict → Dict
  | [] => a
  | (k, v) :: rest => deep_merge (setKey a k (mergeVal (lookup a k) v)) rest

/-- The per-key case split in the body of `deep_merge`: recurse when both
    the existing entry and the incoming value are dicts, else the incoming
    value wins (arrays and scalars are replaced wholesale). -/
def mergeVal (o : Option JVal) : JVal → JVal
  | JVal.dict d2 =>
    match o with
    | some (JVal.dict d1) => JVal.dict (deep_merge d1 d2)
    | _ => JVal.dict d2
  | v => v

end

mutual

/-- Well-formedness of a JSON value: every dict reachable through dict
    entries has pairwise-distinct keys (always true of Python dicts). -/
def wfv : JVal → Bool
  | JVal.dict kvs => decide ((keys kvs).Nodup) && wfList kvs
  | _ => true

/-- All values of a dict are well-formed (see `wfv`). -/
def wfList : Dict → Bool
  | [] => true
  | (_, v) :: rest => wfv v && wfList rest

end

/-- Well-formedness of a dict: distinct keys here and in every nested dict. -/
def wfl (kvs : Dict) : Bool := wfv (JVal.dict kvs)

/-! ### Basic dictionary lemmas -/

@[simp] theorem lookup_nil (k : String) : lookup [] k = none := rfl

theorem lookup_cons (k' k : String) (v : JVal) (l : Dict) :
    lookup ((k', v) :: l) k = if k' = k then some v else lookup l k := rfl

@[simp] theorem lookup_setKey_self (l : Dict) (k : String) (v : JVal) :
    lookup (setKey l k v) k = some v := by
  induction l with
  | nil => simp [setKey, lookup]
  | cons kv rest ih =>
    obtain ⟨k', v'⟩ := kv
    by_cases h : k' = k <;> simp [setKey, lookup, h, ih]

theorem lookup_setKey_ne (l : Dict) (k k' : String) (v : JVal) (h : k ≠ k') :
    lookup (setKey l k' v) k = lookup l k := by
  induction l with
  | nil => simp [setKey, lookup, Ne.symm h]
  | cons kv rest ih =>
    obtain ⟨k₀, v₀⟩ := kv
    by_cases h0 : k₀ = k'
    · subst h0
      simp [setKey, lookup, Ne.symm h]
    · simp [setKey, lookup, h0, ih]

@[simp] theorem keys_nil : keys ([] : Dict) = [] := rfl

@[simp] theorem keys_cons (kv : String × JVal) (l : Dict) :
    keys (kv :: l) = kv.1 :: keys l := rfl

theorem lookup_eq_none_iff (l : Dict) (k : String) :
    lookup l k = none ↔ k ∉ keys l := by
  induction l with
  | nil => simp
  | cons kv rest ih =>
    obtain ⟨k', v'⟩ := kv
    by_cases h : k' = k
    · subst h; simp [lookup]
    · simp only [lookup, if_neg h, keys_cons, List.mem_cons, ih]
      constructor
      · intro hn hc
        rcases hc with hc | hc
        · exact h hc.symm
        · exact hn hc
      · intro hn hc
        exact hn (Or.inr hc)

theorem lookup_mem {l : Dict} {k : String} {v : JVal} (h : lookup l k = some v) :
    (k, v) ∈ l := by
  induction l with
  | nil => simp [lookup] at h
  | cons kv rest ih =>
    obtain ⟨k', v'⟩ := kv
    by_cases h0 : k' = k
    · subst h0
      simp [lookup] at h
      subst h; simp
    · simp [lookup, h0] at h
      exact List.mem_cons_of_mem _ (ih h)

theorem mem_lookup {l : Dict} {k : String} {v : JVal}
    (hnd : (keys l).Nodup) (h : (k, v) ∈ l) : lookup l k = some v := by
  induction l with
  | nil => simp at h
  | cons kv rest ih =>
    obtain ⟨k', v'⟩ := kv
    rw [keys_cons, List.nodup_cons] at hnd
    rcases List.mem_cons.1 h with h1 | h1
    · cases h1; simp [lookup]
    · have hk : ¬ k' = k := by
        intro he; subst he
        exact hnd.1 (List.mem_map.2 ⟨(k', v), h1, rfl⟩)
      simp only [lookup, if_neg hk]
      exact ih hnd.2 h1

theorem setKey_of_lookup_none {l : Dict} {k : String} (v : JVal)
    (h : lookup l k = none) : setKey l k v = l ++ [(k, v)] := by
  induction l with
  | nil => simp [setKey]
  | cons kv rest ih =>
    obtain ⟨k', v'⟩ := kv
    by_cases h0 : k' = k
    · simp [lookup, h0] at h
    · simp [lookup, h0] at h
      simp [setKey, h0, ih h]

theorem keys_setKey_of_mem {l : Dict} {k : String} (v : JVal)
    (h : k ∈ keys l) : keys (setKey l k v) = keys l := by
  induction l with
  | nil => simp at h
  | cons kv rest ih =>
    obtain ⟨k', v'⟩ := kv
    by_cases h0 : k' = k
    · simp [setKey, h0]
    · rw [keys_cons] at h
      rcases List.mem_cons.1 h with h1 | h1
      · exact absurd h1.symm h0
      · simp [setKey, h0, ih h1]

theorem lookup_append (l₁ l₂ : Dict) (k : String) :
    lookup (l₁ ++ l₂) k =
      match lookup l₁ k with
      | some v => some v
      | none => lookup l₂ k := by
  induction l₁ with
  | nil => simp [lookup]
  | cons kv rest ih =>
    obtain ⟨k', v'⟩ := kv
    by_cases h : k' = k <;> simp [lookup, h, ih]

@[simp] theorem mergeVal_none (v : JVal) : mergeVal none v = v := by
  cases v <;> rfl

/-! ### Key-wise behaviour of `deep_merge` -/

/-- Keys absent from the incoming dict are left untouched. -/
theorem lookup_deep_merge_of_right_none {b : Dict} {k : String}
    (a : Dict) (h : lookup b k = none) :
    lookup (deep_merge a b) k = lookup a k := by
  induction b generalizing a with
  | nil => simp [deep_merge]
  | cons kv rest ih =>
    obtain ⟨k', v'⟩ := kv
    by_cases h0 : k' = k <;> simp [lookup, h0] at h
    rw [deep_merge, ih _ h, lookup_setKey_ne _ _ _ _ (fun he => h0 he.symm)]

/-- Keys present in the incoming dict obtain the merged value: the recursive
    merge when both sides are dicts, the incoming value otherwise. -/
theorem lookup_deep_merge_of_right_some {b : Dict} {k : String} {vb : JVal}
    (a : Dict) (hnd : (keys b).Nodup) (h : lookup b k = some vb) :
    lookup (deep_merge a b) k = some (mergeVal (lookup a k) vb) := by
  induction b generalizing a with
  | nil => simp [lookup] at h
  | cons kv rest ih =>
    obtain ⟨k', v'⟩ := kv
    rw [keys_cons, List.nodup_cons] at hnd
    by_cases h0 : k' = k
    · subst h0
      simp [lookup] at h
      subst h
      have hrest : lookup rest k' = none := (lookup_eq_none_iff rest k').2 hnd.1
      rw [deep_merge, lookup_deep_merge_of_right_none _ hrest, lookup_setKey_self]
    · simp [lookup, h0] at h
      rw [deep_merge, ih _ hnd.2 h, lookup_setKey_ne _ _ _ _ (fun he => h0 he.symm)]

/-! ### Structural characterization of `deep_merge`

`deep_merge a b` is: `a` with each entry updated against `b`, followed by
the entries of `b` whose keys are new, in order. -/

/-- The value a key of the existing dict ends up with after the merge. -/
def updVal (b : Dict) (k : String) (va : JVal) : JVal :=
  match lookup b k with
  | none => va
  | some vb => mergeVal (some va) vb

/-- `a` with every entry updated against the incoming dict `b`. -/
def updateAll (a b : Dict) : Dict :=
  a.map fun kv => (kv.1, updVal b kv.1 kv.2)

/-- The entries of `b` whose keys do not occur in `a`, in order. -/
def newEntries (a b : Dict) : Dict :=
  b.filter fun kv => (lookup a kv.1).isNone

@[simp] theorem updateAll_nil (a : Dict) : updateAll a [] = a := by
  simp [updateAll, updVal, lookup]

@[simp] theorem newEntries_nil (a : Dict) : newEntries a [] = [] := rfl

theorem updateAll_cons_of_not_mem (a : Dict) (k : String) (v : JVal) (rest : Dict)
    (h : k ∉ keys a) : updateAll a ((k, v) :: rest) = updateAll a rest := by
  apply List.map_congr_left
  intro kv hkv
  have hne : ¬ k = kv.1 := fun he => h (he ▸ List.mem_map.2 ⟨kv, hkv, rfl⟩)
  simp [updVal, lookup, hne]

theorem updateAll_setKey_mem (a : Dict) (k : String) (v va : JVal) (rest : Dict)
    (hnd : (keys a).Nodup) (ha : lookup a k = some va) (hr : lookup rest k = none) :
    updateAll (setKey a k (mergeVal (some va) v)) rest = updateAll a ((k, v) :: rest) := by
  induction a with
  | nil => simp [lookup] at ha
  | cons kv a' ih =>
    obtain ⟨k₀, v₀⟩ := kv
    rw [keys_cons, List.nodup_cons] at hnd
    by_cases h0 : k₀ = k
    · subst h0
      have hva : v₀ = va := by simpa [lookup] using ha
      subst hva
      rw [show setKey ((k₀, v₀) :: a') k₀ (mergeVal (some v₀) v)
            = (k₀, mergeVal (some v₀) v) :: a' from by simp [setKey]]
      simp only [updateAll, List.map_cons]
      congr 1
      · simp [updVal, hr, lookup]
      · apply List.map_congr_left
        intro kv hkv
        have hne : ¬ k₀ = kv.1 := fun he =>
          hnd.1 (he ▸ List.mem_map.2 ⟨kv, hkv, rfl⟩)
        simp [updVal, lookup, hne]
    · have ha' : lookup a' k = some va := by simpa [lookup, h0] using ha
      simp only [setKey, if_neg h0, updateAll, List.map_cons]
      congr 1
      · simp [updVal, lookup, Ne.symm h0]
      · exact ih hnd.2 ha'

theorem newEntries_setKey (a : Dict) (k : String) (w : JVal) (rest : Dict)
    (hr : lookup rest k = none) :
    newEntries (setKey a k w) rest = newEntries a rest := by
  apply List.filter_congr
  intro kv hkv
  have hne : kv.1 ≠ k := by
    intro he
    rw [lookup_eq_none_iff] at hr
    exact hr (he ▸ List.mem_map.2 ⟨kv, hkv, rfl⟩)
  rw [lookup_setKey_ne _ _ _ _ hne]

theorem newEntries_append_right (a : Dict) (k : String) (v : JVal) (rest : Dict)
    (hr : lookup rest k = none) :
    newEntries (a ++ [(k, v)]) rest = newEntries a rest := by
  apply List.filter_congr
  intro kv hkv
  have hne : kv.1 ≠ k := by
    intro he
    rw [lookup_eq_none_iff] at hr
    exact hr (he ▸ List.mem_map.2 ⟨kv, hkv, rfl⟩)
  rw [lookup_append]
  rcases hl : lookup a kv.1 with _ | w
  · simp [lookup, Ne.symm hne]
  · simp

/-- Full structural description of `deep_merge` on well-keyed dicts. -/
theorem deep_merge_eq_updateAll_append (a b : Dict)
    (hnda : (keys a).Nodup) (hndb : (keys b).Nodup) :
    deep_merge a b = updateAll a b ++ newEntries a b := by
  induction b generalizing a with
  | nil => simp [deep_merge]
  | cons kv rest ih =>
    obtain ⟨k, v⟩ := kv
    rw [keys_cons, List.nodup_cons] at hndb
    have hr : lookup rest k = none := (lookup_eq_none_iff rest k).2 hndb.1
    rw [deep_merge]
    rcases hl : lookup a k with _ | va
    · -- the key is new to `a`: the entry is appended at the end
      have hmem : k ∉ keys a := (lookup_eq_none_iff a k).1 hl
      rw [mergeVal_none, setKey_of_lookup_none v hl]
      have hnda' : (keys (a ++ [(k, v)])).Nodup := by
        simp only [keys, List.map_append]
        rw [List.nodup_append]
        exact ⟨hnda, by simp, by simpa using fun hk => hmem hk⟩
      rw [ih _ hnda' hndb.2]
      rw [updateAll_cons_of_not_mem _ _ _ _ hmem]
      have h1 : updateAll (a ++ [(k, v)]) rest = updateAll a rest ++ [(k, v)] := by
        simp only [updateAll, List.map_append, List.map_cons, List.map_nil]
        simp [updVal, hr]
      have h2 : newEntries a ((k, v) :: rest) = (k, v) :: newEntries a rest := by
        simp [newEntries, List.filter, hl]
      rw [h1, newEntries_append_right _ _ _ _ hr, h2]
      simp
    · -- the key exists in `a`: update in place
      have hmem : k ∈ keys a := by
        by_contra hk
        rw [← lookup_eq_none_iff] at hk
        rw [hk] at hl; cases hl
      have hnda' : (keys (setKey a k (mergeVal (some va) v))).Nodup := by
        rw [keys_setKey_of_mem _ hmem]; exact hnda
      rw [ih _ hnda' hndb.2, updateAll_setKey_mem _ _ _ _ _ hnda hl hr,
        newEntries_setKey _ _ _ _ hr]
      have h2 : newEntries a ((k, v) :: rest) = newEntries a rest := by
        simp [newEntries, List.filter, hl]
      rw [h2]

/-! ### Well-formedness helpers and merge idempotence -/

theorem wfl_nodup (l : Dict) (h : wfl l = true) : (keys l).Nodup := by
  rw [wfl, wfv, Bool.and_eq_true, decide_eq_true_eq] at h
  exact h.1

theorem wfl_wfList (l : Dict) (h : wfl l = true) : wfList l = true := by
  rw [wfl, wfv, Bool.and_eq_true] at h
  exact h.2

theorem wfList_mem {l : Dict} (h : wfList l = true) {k : String} {v : JVal}
    (hm : (k, v) ∈ l) : wfv v = true := by
  induction l with
  | nil => simp at hm
  | cons kv rest ih =>
    obtain ⟨k', v'⟩ := kv
    rw [wfList, Bool.and_eq_true] at h
    rcases List.mem_cons.1 hm with h1 | h1
    · cases h1; exact h.1
    · exact ih h.2 h1

theorem wfl_of_mem_dict {l : Dict} (h : wfl l = true) {k : String} {d : Dict}
    (hm : (k, JVal.dict d) ∈ l) : wfl d = true :=
  wfList_mem (wfl_wfList l h) hm

theorem sizeOf_val_lt_of_mem {l : Dict} {k : String} {v : JVal}
    (h : (k, v) ∈ l) : sizeOf v < sizeOf l := by
  have h1 := List.sizeOf_lt_of_mem h
  have h2 : sizeOf (k, v) = 1 + sizeOf k + sizeOf v := rfl
  omega

theorem lookup_isSome_of_mem {l : Dict} {kv : String × JVal} (h : kv ∈ l) :
    (lookup l kv.1).isSome = true := by
  rcases hl : lookup l kv.1 with _ | w
  · rw [lookup_eq_none_iff] at hl
    exact absurd (List.mem_map.2 ⟨kv, h, rfl⟩) hl
  · rfl

theorem keys_updateAll (a b : Dict) : keys (updateAll a b) = keys a := by
  simp [updateAll, keys, List.map_map, Function.comp]

theorem lookup_updateAll (a b : Dict) (k : String) :
    lookup (updateAll a b) k = (lookup a k).map (fun va => updVal b k va) := by
  induction a with
  | nil => simp [updateAll, lookup]
  | cons kv rest ih =>
    obtain ⟨k', v'⟩ := kv
    by_cases h : k' = k
    · subst h; simp [updateAll, lookup]
    · simp only [updateAll, List.map_cons, lookup, if_neg h] at ih ⊢
      exact ih

/-- Merging a well-keyed dict into itself is the identity. -/
theorem deep_merge_self (d : Dict) (h : wfl d = true) : deep_merge d d = d := by
  have hnd : (keys d).Nodup := wfl_nodup d h
  rw [deep_merge_eq_updateAll_append d d hnd hnd]
  have hne : newEntries d d = [] := by
    rw [newEntries, List.filter_eq_nil_iff]
    intro kv hkv
    simp [lookup_isSome_of_mem hkv, Option.isNone]
    rcases hl : lookup d kv.1 with _ | w
    · have := lookup_isSome_of_mem hkv
      rw [hl] at this; cases this
    · simp
  have hupd : updateAll d d = d := by
    have hcongr : ∀ kv ∈ d, (fun kv : String × JVal => (kv.1, updVal d kv.1 kv.2)) kv = id kv := by
      intro kv hkv
      obtain ⟨k, v⟩ := kv
      have hk : lookup d k = some v := mem_lookup hnd hkv
      simp only [updVal, hk, id]
      cases v with
      | dict dd =>
        have hw : wfl dd = true := wfl_of_mem_dict h hkv
        have hrec := deep_merge_self dd hw
        simp [mergeVal, hrec]
      | str s => rfl
      | num n => rfl
      | bool b => rfl
      | null => rfl
      | arr xs => rfl
    rw [updateAll, List.map_congr_left hcongr, List.map_id]
  rw [hne, hupd, List.append_nil]
termination_by sizeOf d
decreasing_by
  have h1 := sizeOf_val_lt_of_mem hkv
  simp at h1
  omega

theorem newEntries_key_not_mem {a b : Dict} {kv : String × JVal}
    (h : kv ∈ newEntries a b) : kv.1 ∉ keys a := by
  have hp := List.of_mem_filter h
  simp only [Option.isNone_iff_eq_none] at hp
  exact (lookup_eq_none_iff a kv.1).1 hp

theorem keys_deep_merge_nodup {a b : Dict}
    (hnda : (keys a).Nodup) (hndb : (keys b).Nodup) :
    (keys (deep_merge a b)).Nodup := by
  rw [deep_merge_eq_updateAll_append a b hnda hndb]
  simp only [keys, List.map_append]
  rw [List.nodup_append]
  refine ⟨by rw [← keys, keys_updateAll]; exact hnda, ?_, ?_⟩
  · exact ((List.filter_sublist b).map Prod.fst).nodup hndb
  · intro x hx1 hx2
    rcases List.mem_map.1 hx2 with ⟨kv, hkv, he⟩
    rw [← keys, keys_updateAll] at hx1
    exact newEntries_key_not_mem hkv (he ▸ hx1)

/-- Re-applying the merge of `a` onto its own merged result is the identity
    (for well-formed, uniquely-keyed nested dicts, i.e. all Python dicts). -/
theorem deep_merge_idem_aux (a b : Dict) (ha : wfl a = true) (hb : wfl b = true) :
    deep_merge a (deep_merge a b) = deep_merge a b := by
  have hnda : (keys a).Nodup := wfl_nodup a ha
  have hndb : (keys b).Nodup := wfl_nodup b hb
  have hndc : (keys (deep_merge a b)).Nodup := keys_deep_merge_nodup hnda hndb
  rw [deep_merge_eq_updateAll_append a (deep_merge a b) hnda hndc]
  conv_lhs =>
    rw [deep_merge_eq_updateAll_append a b hnda hndb]
  -- the fresh entries of the merged result coincide with those of `b`
  have hnew : newEntries a (updateAll a b ++ newEntries a b) = newEntries a b := by
    rw [newEntries, List.filter_append]
    have h1 : List.filter (fun kv => (lookup a kv.1).isNone) (updateAll a b) = [] := by
      rw [List.filter_eq_nil_iff]
      intro kv hkv
      have hmem : kv.1 ∈ keys (updateAll a b) := List.mem_map.2 ⟨kv, hkv, rfl⟩
      rw [keys_updateAll] at hmem
      rcases hl : lookup a kv.1 with _ | w
      · rw [lookup_eq_none_iff] at hl; exact absurd hmem hl
      · simp
    have h2 : List.filter (fun kv => (lookup a kv.1).isNone) (newEntries a b)
        = newEntries a b := by
      rw [List.filter_eq_self]
      intro kv hkv
      rw [newEntries] at hkv
      have hp := List.of_mem_filter hkv
      simpa using hp
    rw [h1, h2, List.nil_append, newEntries]
  -- the updated prefix also coincides
  have hupd : updateAll a (updateAll a b ++ newEntries a b) = updateAll a b := by
    apply List.map_congr_left
    intro kv hkv
    obtain ⟨k, va⟩ := kv
    have hk : lookup a k = some va := mem_lookup hnda hkv
    have hck : lookup (updateAll a b ++ newEntries a b) k = some (updVal b k va) := by
      rw [lookup_append, lookup_updateAll, hk]
      simp
    simp only
    rw [show updVal (updateAll a b ++ newEntries a b) k va
          = mergeVal (some va) (updVal b k va) from by rw [updVal, hck]]
    congr 1
    rcases hlb : lookup b k with _ | vb
    · -- key not incoming: value must absorb a self-merge
      rw [show updVal b k va = va from by rw [updVal, hlb]]
      cases va with
      | dict dd =>
        have hw : wfl dd = true := wfl_of_mem_dict ha hkv
        simp [mergeVal, deep_merge_self dd hw]
      | str s => rfl
      | num n => rfl
      | bool b => rfl
      | null => rfl
      | arr xs => rfl
    · rw [show updVal b k va = mergeVal (some va) vb from by rw [updVal, hlb]]
      cases va with
      | dict d1 =>
        cases vb with
        | dict d2 =>
          have hw1 : wfl d1 = true := wfl_of_mem_dict ha hkv
          have hw2 : wfl d2 = true := wfl_of_mem_dict hb (lookup_mem hlb)
          have hrec := deep_merge_idem_aux d1 d2 hw1 hw2
          simp [mergeVal, hrec]
        | str s => rfl
        | num n => rfl
        | bool b => rfl
        | null => rfl
        | arr xs => rfl
      | str s => cases vb <;> rfl
      | num n => cases vb <;> rfl
      | bool b0 => cases vb <;> rfl
      | null => cases vb <;> rfl
      | arr xs => cases vb <;> rfl
  rw [hnew, hupd]
  exact (deep_merge_eq_updateAll_append a b hnda hndb).symm
termination_by sizeOf a + sizeOf b
decreasing_by
  have h1 := sizeOf_val_lt_of_mem hkv
  have h2 := sizeOf_val_lt_of_mem (lookup_mem hlb)
  simp at h1 h2
  omega

/-! ### Character-level string helpers (Python `str.split`, `os.path`)

Python strings are modelled as `List Char` where character-level reasoning
is needed; `String.mk`/`String.data` convert at the boundaries. -/

/-- `s.split(c, 1)` when it yields two parts: split at the FIRST occurrence
    of `c`; `none` when `c` does not occur. -/
def splitFirst (c : Char) : List Char → Option (List Char × List Char)
  | [] => none
  | x :: xs =>
    if x = c then some ([], xs)
    else
      match splitFirst c xs with
      | none => none
      | some (l, r) => some (x :: l, r)

/-- Split at the LAST occurrence of `c` (`s.rpartition(c)` / `rfind`). -/
def rsplitLast (c : Char) : List Char → Option (List Char × List Char)
  | [] => none
  | x :: xs =>
    match rsplitLast c xs with
    | some (l, r) => some (x :: l, r)
    | none => if x = c then some ([], xs) else none

/-- `os.path.basename`: everything after the last slash. -/
def basename (s : List Char) : List Char :=
  match rsplitLast '/' s with
  | some (_, r) => r
  | none => s

/-- `os.path.splitext`: split off the extension at the last dot of the
    basename, unless every character of the basename before that dot is
    itself a dot (leading-dot files have no extension). -/
def splitext (p : List Char) : List Char × List Char :=
  match rsplitLast '/' p with
  | some (d, b) =>
    (match rsplitLast '.' b with
     | some (stem, ext) =>
       if stem.all (fun c => c = '.') then (p, [])
       else (d ++ '/' :: stem, '.' :: ext)
     | none => (p, []))
  | none =>
    match rsplitLast '.' p with
    | some (stem, ext) =>
      if stem.all (fun c => c = '.') then (p, [])
      else (stem, '.' :: ext)
    | none => (p, [])

/-- `detect_asset_type_from_filename` from `start_pipeline/main.py`. -/
def detect_asset_type_from_filename (file_name : String) : String :=
  let ext := (splitext (file_name.data.map Char.toLower)).2
  if ext ∈ [".mp4".data, ".mov".data, ".mkv".data, ".avi".data] then "video"
  else if ext ∈ [".jpg".data, ".jpeg".data, ".png".data, ".webp".data, ".tiff".data] then "image"
  else if ext ∈ [".mp3".data, ".wav".data, ".aac".data] then "audio"
  else "unknown"

/-- The characters of the `gs://` scheme prefix. -/
def gsPrefix : List Char := ['g', 's', ':', '/', '/']

/-- `parse_gs_url` from `start_pipeline/main.py`: `gs://bucket/object` into
    `(bucket, object_name)`, raising 400 on anything else. -/
def parse_gs_url (s : List Char) : Except HTTPError (List Char × List Char) :=
  if s.take 5 = gsPrefix then
    match splitFirst '/' (s.drop 5) with
    | none => Except.error ⟨400, "Invalid GCS URL: " ++ String.mk s⟩
    | some (bucket, object_name) =>
      if bucket = [] ∨ object_name = [] then
        Except.error ⟨400, "Invalid GCS URL: " ++ String.mk s⟩
      else Except.ok (bucket, object_name)
  else Except.error ⟨400, "Invalid GCS URL: " ++ String.mk s⟩

/-! #### `splitFirst` specification -/

theorem splitFirst_sound {c : Char} {s : List Char} :
    ∀ {l r}, splitFirst c s = some (l, r) → s = l ++ c :: r ∧ c ∉ l := by
  induction s with
  | nil => intro l r h; cases h
  | cons x xs ih =>
    intro l r h
    by_cases hx : x = c
    · subst hx
      rw [splitFirst, if_pos rfl] at h
      simp only [Option.some_inj, Prod.mk.injEq] at h
      obtain ⟨h1, h2⟩ := h
      subst h1; subst h2
      simp
    · rw [splitFirst, if_neg hx] at h
      cases hs : splitFirst c xs with
      | none => rw [hs] at h; cases h
      | some p =>
        obtain ⟨l₀, r₀⟩ := p
        rw [hs] at h
        simp only [Option.some_inj, Prod.mk.injEq] at h
        obtain ⟨h1, h2⟩ := h
        subst h1; subst h2
        obtain ⟨hxs, hnm⟩ := ih hs
        refine ⟨by simp [hxs], ?_⟩
        intro hc
        rcases List.mem_cons.1 hc with hc | hc
        · exact hx hc.symm
        · exact hnm hc

theorem splitFirst_complete {c : Char} {l : List Char} (r : List Char)
    (h : c ∉ l) : splitFirst c (l ++ c :: r) = some (l, r) := by
  induction l with
  | nil => simp [splitFirst]
  | cons y ys ih =>
    simp only [List.mem_cons, not_or] at h
    have hy : ¬ y = c := fun he => h.1 he.symm
    rw [List.cons_append, splitFirst, if_neg hy, ih h.2]

theorem splitFirst_eq_none_iff (c : Char) (s : List Char) :
    splitFirst c s = none ↔ c ∉ s := by
  induction s with
  | nil => simp [splitFirst]
  | cons x xs ih =>
    by_cases h : x = c
    · subst h; simp [splitFirst]
    · rw [splitFirst, if_neg h]
      cases hs : splitFirst c xs with
      | none =>
        have hnm := ih.1 hs
        simp only [List.mem_cons, not_or, true_iff]
        exact ⟨fun he => h he.symm, hnm⟩
      | some p =>
        obtain ⟨l₀, r₀⟩ := p
        have hspec := splitFirst_sound hs
        constructor
        · intro hm; cases hm
        · intro hnm
          exact absurd (List.mem_cons_of_mem x (by rw [hspec.1]; simp)) hnm

theorem parse_gs_url_ok_iff (s b o : List Char) :
    parse_gs_url s = Except.ok (b, o) ↔
      s = gsPrefix ++ b ++ '/' :: o ∧ b ≠ [] ∧ '/' ∉ b ∧ o ≠ [] := by
  have hlen : gsPrefix.length = 5 := rfl
  constructor
  · intro h
    rw [parse_gs_url] at h
    by_cases ht : s.take 5 = gsPrefix
    · rw [if_pos ht] at h
      cases hsp : splitFirst '/' (s.drop 5) with
      | none => rw [hsp] at h; cases h
      | some p =>
        obtain ⟨b₀, o₀⟩ := p
        rw [hsp] at h
        dsimp only at h
        by_cases hbo : b₀ = [] ∨ o₀ = []
        · rw [if_pos hbo] at h; cases h
        · rw [if_neg hbo] at h
          simp only [Except.ok.injEq, Prod.mk.injEq] at h
          obtain ⟨h1, h2⟩ := h
          subst h1; subst h2
          push_neg at hbo
          obtain ⟨hd, hnm⟩ := splitFirst_sound hsp
          refine ⟨?_, hbo.1, hnm, hbo.2⟩
          conv_lhs => rw [← List.take_append_drop 5 s]
          rw [ht, hd, List.append_assoc]
    · rw [if_neg ht] at h; cases h
  · rintro ⟨hs, hb, hnm, ho⟩
    subst hs
    rw [parse_gs_url]
    have ht : (gsPrefix ++ b ++ '/' :: o).take 5 = gsPrefix := by
      rw [List.append_assoc, ← hlen, List.take_left]
    have hdrop : (gsPrefix ++ b ++ '/' :: o).drop 5 = b ++ '/' :: o := by
      rw [List.append_assoc, ← hlen, List.drop_left]
    rw [if_pos ht, hdrop, splitFirst_complete o hnm]
    dsimp only
    rw [if_neg (not_or.mpr ⟨hb, ho⟩)]

/-! ### Python value coercions and the input normalizer -/

mutual

/-- Python `repr` of a JSON value (as used by f-string interpolation of
    containers). -/
def pyRepr : JVal → String
  | JVal.str s => "\x27" ++ s ++ "\x27"
  | JVal.num n => toString n
  | JVal.bool true => "True"
  | JVal.bool false => "False"
  | JVal.null => "None"
  | JVal.arr xs => "[" ++ String.intercalate ", " (pyReprList xs) ++ "]"
  | JVal.dict kvs => "\x7b" ++ String.intercalate ", " (pyReprPairs kvs) ++ "\x7d"

/-- `repr` of the elements of a list. -/
def pyReprList : List JVal → List String
  | [] => []
  | v :: vs => pyRepr v :: pyReprList vs

/-- `repr` of the items of a dict. -/
def pyReprPairs : List (String × JVal) → List String
  | [] => []
  | (k, v) :: kvs => ("\x27" ++ k ++ "\x27: " ++ pyRepr v) :: pyReprPairs kvs

end

/-- Python `str()` of a JSON value, as applied by an f-string. -/
def pyStr : JVal → String
  | JVal.str s => s
  | v => pyRepr v

/-- Python truthiness of a JSON value. -/
def truthy : JVal → Bool
  | JVal.str s => !(s == "")
  | JVal.num n => !(n == 0)
  | JVal.bool b => b
  | JVal.null => false
  | JVal.arr xs => !xs.isEmpty
  | JVal.dict kvs => !kvs.isEmpty

/-- Python `x == "lit"` for a JSON value fetched with `.get` (`none` is
    Python `None`, never equal to a string). -/
def isStrEq (v : Option JVal) (s : String) : Bool :=
  match v with
  | some (JVal.str t) => t == s
  | _ => false

/-- Shape 1 of `build_initial_payload`: Getty / GCS ingestion via
    `media_url`.  A non-string `media_url` makes `parse_gs_url` raise
    `AttributeError`, surfaced by the framework as a 500. -/
def buildFromMediaUrl (data : Dict) (media_url : JVal) : Except HTTPError Dict :=
  let media_type := (lookup data "media_type").getD (JVal.str "unknown")
  let getty_metadata := (lookup data "getty_metadata").getD (JVal.dict [])
  let source := (lookup data "source").getD (JVal.str "getty")
  let asset_id := (lookup data "asset_id").getD (JVal.str "getty_asset")
  match media_url with
  | JVal.str u =>
    match parse_gs_url u.data with
    | Except.error e => Except.error e
    | Except.ok (bucket, object_name) =>
      let file_name := object_name
      let asset_type : JVal :=
        if isStrEq (some media_type) "image" || isStrEq (some media_type) "video"
            || isStrEq (some media_type) "audio"
        then media_type
        else JVal.str (detect_asset_type_from_filename (String.mk file_name))
      let payload : Dict :=
        [("asset_id", asset_id),
         ("source", source),
         ("media_type", media_type),
         ("asset_type", asset_type),
         ("bucket", JVal.str (String.mk bucket)),
         ("file_name", JVal.str (String.mk file_name)),
         ("paths", JVal.dict [("raw", media_url)])]
      Except.ok
        (if truthy getty_metadata then payload ++ [("getty_metadata", getty_metadata)]
         else payload)
  | _ => Except.error ⟨500, "Internal Server Error"⟩

/-- Shapes 4 and 5 of `build_initial_payload` (GCS ingestion and URL
    ingestion), plus the final `InvalidInput` rejection. -/
def buildRest (data : Dict) : Except HTTPError Dict :=
  match lookup data "file_name", lookup data "bucket" with
  | some fn, some bk =>
    (match fn with
     | JVal.str fname =>
       Except.ok
         [("asset_id", JVal.str (String.mk (splitext (basename fname.data)).1)),
          ("file_name", fn),
          ("bucket", bk),
          ("source", (lookup data "source").getD (JVal.str "local")),
          ("asset_type", JVal.str (detect_asset_type_from_filename fname)),
          ("paths", JVal.dict [("raw", JVal.str ("gs://" ++ pyStr bk ++ "/" ++ fname))])]
     | _ => Except.error ⟨500, "Internal Server Error"⟩)
  | _, _ =>
    match lookup data "url" with
    | some u =>
      Except.ok
        [("asset_id", (lookup data "asset_id").getD (JVal.str "url_asset")),
         ("source", (lookup data "source").getD (JVal.str "url")),
         ("url", u),
         ("asset_type", JVal.str "unknown")]
    | none =>
      Except.error
        ⟨400, "Invalid input: provide media_url OR media_bytes OR file_name+bucket OR url"⟩

/-- `build_initial_payload` from `start_pipeline/main.py`: normalize the
    five recognized raw-input shapes into the initial pipeline payload. -/
def build_initial_payload (data : Dict) : Except HTTPError Dict :=
  match lookup data "media_url" with
  | some mu => buildFromMediaUrl data mu
  | none =>
    match lookup data "media_bytes" with
    | some mb =>
      if isStrEq (lookup data "source") "getty" then
        -- Shape 2: Getty ingestion (raw bytes + metadata); `data["media_type"]`
        -- raises `KeyError` when absent (surfaced as a 500).
        match lookup data "media_type" with
        | some mt =>
          Except.ok
            [("asset_id", (lookup data "asset_id").getD (JVal.str "getty_asset")),
             ("source", JVal.str "getty"),
             ("media_type", mt),
             ("media_bytes", mb),
             ("getty_metadata", (lookup data "getty_metadata").getD (JVal.dict [])),
             ("asset_type", mt)]
        | none => Except.error ⟨500, "Internal Server Error"⟩
      else
        match lookup data "media_type" with
        | some mt =>
          -- Shape 3: direct upload (raw bytes)
          Except.ok
            [("asset_id", (lookup data "asset_id").getD (JVal.str "direct_upload")),
             ("source", (lookup data "source").getD (JVal.str "upload")),
             ("media_type", mt),
             ("media_bytes", mb),
             ("asset_type", mt)]
        | none => buildRest data
    | none => buildRest data

/-! ### The stage-graph executor (`run_all`)

Downstream HTTP behaviour is abstracted by an oracle mapping an endpoint
name and the posted payload to that call's outcome; `urls` models the
`*_URL` environment variables.  The executor is instrumented with the list
of stage calls it actually issues (in order), which is precisely the list
of `requests.post` invocations performed by the Python code. -/

/-- Outcome of one `requests.post` to a stage service. -/
inductive CallResult where
  | success (body : Dict)
  | failure (status : Nat) (body : String)
  deriving Repr

/-- One issued stage call: endpoint, posted payload, and outcome. -/
structure Call where
  endpoint : String
  payload : Dict
  result : CallResult
  deriving Repr

/-- Environment of the executor: stage outcomes keyed by endpoint. -/
abbrev Oracle := String → Dict → CallResult

/-- The configured service URLs (`None` models a missing env var). -/
abbrev Urls := String → Option String

/-- `call_service` from `start_pipeline/main.py`: raise 500 when no URL is
    configured (before any request is posted), otherwise post once and
    raise the downstream status/body on any non-200 answer. -/
def call_service (urls : Urls) (oracle : Oracle) (endpoint : String) (payload : Dict) :
    List Call × Except HTTPError Dict :=
  match urls endpoint with
  | none => ([], Except.error ⟨500, "Missing service URL for " ++ endpoint⟩)
  | some _ =>
    match oracle endpoint payload with
    | CallResult.success body => ([⟨endpoint, payload, CallResult.success body⟩], Except.ok body)
    | CallResult.failure st b => ([⟨endpoint, payload, CallResult.failure st b⟩], Except.error ⟨st, b⟩)

/-- Sequencing of trace-accumulating fallible steps (Python exception
    propagation: once a step raises, nothing later runs). -/
def andThen {α β : Type} (st : List Call × Except HTTPError α)
    (f : α → List Call × Except HTTPError β) : List Call × Except HTTPError β :=
  match st with
  | (t, Except.error e) => (t, Except.error e)
  | (t, Except.ok a) =>
    match f a with
    | (t₂, r) => (t ++ t₂, r)

/-- `merged.get("status", dict()).get("audio")` — reading a non-dict
    `status` raises `AttributeError` (surfaced as a 500). -/
def audioStatusOf (m : Dict) : Except HTTPError (Option JVal) :=
  match lookup m "status" with
  | none => Except.ok none
  | some (JVal.dict d) => Except.ok (lookup d "audio")
  | some _ => Except.error ⟨500, "Internal Server Error"⟩

/-- The completion report returned by `/run_all` on success. -/
structure Report where
  pipeline : String
  timestamp : String
  result : Dict
  deriving Repr

/-- The transcode gate of `run_all`: video assets that are not inline
    byte payloads. -/
def transcodeGate (payload : Dict) : Bool :=
  isStrEq (lookup payload "asset_type") "video" && (lookup payload "media_bytes").isNone

/-- The transcribe gate of `run_all`: audio assets always, video assets
    only when the transcoder reported `status.audio == "extracted"`. -/
def shouldTranscribe (payload : Dict) (audio_status : Option JVal) : Bool :=
  if isStrEq (lookup payload "asset_type") "audio" then true
  else if isStrEq (lookup payload "asset_type") "video" then
    isStrEq audio_status "extracted"
  else false

/-- Step 1 of `run_all`: transcode (video only, non-byte payloads), then
    read `status.audio` from the merged record. -/
def runStep1 (urls : Urls) (oracle : Oracle) (payload : Dict) :
    List Call × Except HTTPError (Dict × Option JVal) :=
  if transcodeGate payload then
    andThen (call_service urls oracle "transcode" payload) (fun tjson =>
      let merged := deep_merge payload tjson
      match audioStatusOf merged with
      | Except.error e => ([], Except.error e)
      | Except.ok astat => ([], Except.ok (merged, astat)))
  else ([], Except.ok (payload, none))

/-- Steps 3–5 of `run_all`: sample frames (same gate as transcode), enrich
    (stored wholesale under `analysis`), then store; on success the
    completion report is produced. -/
def runStep3to5 (urls : Urls) (oracle : Oracle) (now : String) (payload : Dict)
    (m₂ : Dict) : List Call × Except HTTPError Report :=
  andThen
    (if transcodeGate payload then
      andThen (call_service urls oracle "sample" m₂) (fun fj =>
        ([], Except.ok (deep_merge m₂ fj)))
     else ([], Except.ok m₂))
    (fun m₃ =>
      andThen (call_service urls oracle "enrich" m₃) (fun ej =>
        andThen (call_service urls oracle "store" (setKey m₃ "analysis" (JVal.dict ej)))
          (fun stored => ([], Except.ok ⟨"complete", now, stored⟩))))

/-- Steps 2–5 of `run_all`: conditionally transcribe, then the rest. -/
def runStep2to5 (urls : Urls) (oracle : Oracle) (now : String) (payload : Dict)
    (ma : Dict × Option JVal) : List Call × Except HTTPError Report :=
  andThen
    (if shouldTranscribe payload ma.2 then
      andThen (call_service urls oracle "transcribe" ma.1) (fun trj =>
        ([], Except.ok (deep_merge ma.1 trj)))
     else ([], Except.ok ma.1))
    (runStep3to5 urls oracle now payload)

/-- `run_all` from `start_pipeline/main.py`, instrumented with the list of
    issued stage calls.  `now` stands for `datetime.utcnow().isoformat()+"Z"`. -/
def run_all (urls : Urls) (oracle : Oracle) (now : String) (data : Dict) :
    List Call × Except HTTPError Report :=
  match build_initial_payload data with
  | Except.error e => ([], Except.error e)
  | Except.ok payload =>
    andThen (runStep1 urls oracle payload) (runStep2to5 urls oracle now payload)

/-! ### Getty ingestor: token cache and licensed download (C6, C7) -/

/-- The module-level token cache of `getty_ingestor/main.py`
    (`_getty_token`, `_getty_token_expiry`); time is in whole seconds. -/
structure TokenState where
  token : Option String
  expiry : Int
  deriving Repr, DecidableEq

/-- One answer of the Getty OAuth2 endpoint.  `expires_in` is `none` when
    the field is missing or uncastable (both fall back to 1800). -/
inductive TokenResp where
  | netErr (msg : String)
  | httpErr (status : Nat) (body : String)
  | payload (access_token : Option String) (expires_in : Option Int)
  deriving Repr

/-- `get_getty_access_token` from `getty_ingestor/main.py`, returning the
    number of underlying OAuth2 requests issued (0 on a cache hit, 1
    otherwise), the updated cache, and the result. -/
def get_getty_access_token (st : TokenState) (now : Int) (resp : TokenResp) :
    Nat × TokenState × Except HTTPError String :=
  let tokenTruthy : Bool :=
    match st.token with
    | some t => !(t == "")
    | none => false
  if tokenTruthy && decide (now < st.expiry - 60) then
    (0, st, Except.ok (st.token.getD ""))
  else
    match resp with
    | TokenResp.netErr m =>
      (1, st, Except.error ⟨500, "Error contacting Getty OAuth2 endpoint: " ++ m⟩)
    | TokenResp.httpErr s b =>
      (1, st, Except.error ⟨s, "Failed to get Getty access token: " ++ b⟩)
    | TokenResp.payload tok exp =>
      match tok with
      | none => (1, st, Except.error ⟨500, "Getty OAuth2 response missing access_token"⟩)
      | some t =>
        let expires_in := exp.getD 1800
        (1, ⟨some t, now + expires_in⟩, Except.ok t)

/-- One answer of the Getty video-downloads endpoint: transport error, or
    a response with status, text and the parsed `uri` field. -/
inductive HttpAttempt where
  | netErr (msg : String)
  | resp (status : Nat) (text : String) (uri : Option String)
  deriving Repr

/-- `get_video_download_url` from `getty_ingestor/main.py`, returning the
    number of requests posted to the licensed-download endpoint (always
    exactly one: there is no retry loop and no preview fallback). -/
def get_video_download_url (answer : HttpAttempt) : Nat × Except HTTPError String :=
  match answer with
  | HttpAttempt.netErr m =>
    (1, Except.error ⟨500, "Error calling Getty video download endpoint: " ++ m⟩)
  | HttpAttempt.resp st text uri =>
    if st = 200 then
      match uri with
      | some u => (1, Except.ok u)
      | none => (1, Except.error ⟨500, "Getty video download response missing uri"⟩)
    else (1, Except.error ⟨st, "Getty video download failed: " ++ text⟩)

/-! ### Getty enricher: download retries (C5) and paginated search (C8) -/

/-- Outcome of one download attempt inside `download_to_gcs_with_retries`
    (`ok` is HTTP 200 followed by a successful GCS upload). -/
inductive AttemptOutcome where
  | ok
  | httpErr (status : Nat) (body : String)
  | netErr (msg : String)
  deriving Repr

/-- `MAX_DOWNLOAD_RETRIES` from `getty_enricher/main.py`. -/
def MAX_DOWNLOAD_RETRIES : Nat := 5

/-- The retry loop of `download_to_gcs_with_retries`: `rem` attempts left,
    `i` the current attempt index, `lastErr` the last recorded error.
    Returns (attempts issued, backoff sleeps performed, result). -/
def downloadGo (att : Nat → AttemptOutcome) (asset_id bucket_name : String) :
    Nat → Nat → Option String → Nat × List Nat × Except HTTPError String
  | 0, _, lastErr =>
    (0, [],
     Except.error
       ⟨502, "Download failed for " ++ asset_id ++ " after retries: " ++ lastErr.getD "None"⟩)
  | rem + 1, i, lastErr =>
    match att i with
    | AttemptOutcome.ok =>
      (1, [], Except.ok ("gs://" ++ bucket_name ++ "/raw/" ++ asset_id ++ ".mp4"))
    | AttemptOutcome.httpErr s b =>
      let e := "Download HTTP " ++ toString s ++ ": " ++ b
      match downloadGo att asset_id bucket_name rem (i + 1) (some e) with
      | (n, sl, r) => (n + 1, 2 ^ i :: sl, r)
    | AttemptOutcome.netErr m =>
      match downloadGo att asset_id bucket_name rem (i + 1) (some m) with
      | (n, sl, r) => (n + 1, 2 ^ i :: sl, r)

/-- `download_to_gcs_with_retries` from `getty_enricher/main.py`:
    every failed attempt — transport error or ANY non-200 status — sleeps
    `2 ** attempt` and retries, up to `MAX_DOWNLOAD_RETRIES` attempts. -/
def download_to_gcs_with_retries (att : Nat → AttemptOutcome) (asset_id bucket_name : String) :
    Nat × List Nat × Except HTTPError String :=
  downloadGo att asset_id bucket_name MAX_DOWNLOAD_RETRIES 0 none

/-- One Getty search-page answer for the paginated candidate search. -/
inductive PageResult where
  | netErr (msg : String)
  | httpErr (status : Nat) (body : String)
  | page (videos : List (Option String × Option String))
  deriving Repr

/-- State of `search_downloadable_asset_ids`: accumulated ids, the
    process-lifetime `_seen_ids` set, the current page, and the number of
    search requests issued so far (indexing the oracle). -/
structure SearchSt where
  ids : List String
  seen : List String
  page : Nat
  req : Nat
  deriving Repr

/-- The inner `for v in videos` loop: skip falsy ids/urls, skip ids already
    seen, record Firestore duplicates as seen, otherwise take the id; break
    as soon as `count` ids are accumulated. -/
def processVideos (fs : String → Bool) (count : Nat) :
    List (Option String × Option String) → List String → List String →
    List String × List String
  | [], ids, seen => (ids, seen)
  | (none, _) :: rest, ids, seen => processVideos fs count rest ids seen
  | (some _, none) :: rest, ids, seen => processVideos fs count rest ids seen
  | (some vid, some url) :: rest, ids, seen =>
    if vid = "" ∨ url = "" then processVideos fs count rest ids seen
    else if vid ∈ seen then processVideos fs count rest ids seen
    else if fs vid then processVideos fs count rest ids (vid :: seen)
    else
      let ids' := ids ++ [vid]
      if count ≤ ids'.length then (ids', vid :: seen)
      else processVideos fs count rest ids' (vid :: seen)

/-- The `while len(ids) < count` loop of `search_downloadable_asset_ids`,
    made total with explicit fuel: `none` means the loop is still running
    after `fuel` iterations (for every fuel — it never returns).  A
    transport error repeats the same page; a non-200 answer and a consumed
    page both advance to the next page. -/
def searchLoop (oracle : Nat → PageResult) (fs : String → Bool) (count : Nat) :
    Nat → SearchSt → Option (List String × SearchSt)
  | 0, _ => none
  | fuel + 1, st =>
    if st.ids.length < count then
      match oracle st.req with
      | PageResult.netErr _ => searchLoop oracle fs count fuel ⟨st.ids, st.seen, st.page, st.req + 1⟩
      | PageResult.httpErr _ _ =>
        searchLoop oracle fs count fuel ⟨st.ids, st.seen, st.page + 1, st.req + 1⟩
      | PageResult.page videos =>
        match processVideos fs count videos st.ids st.seen with
        | (ids', seen') => searchLoop oracle fs count fuel ⟨ids', seen', st.page + 1, st.req + 1⟩
    else some (st.ids, st)

/-- `search_downloadable_asset_ids` from `getty_enricher/main.py`, with
    fuel-bounded observation of the (potentially endless) paging loop. -/
def search_downloadable_asset_ids (oracle : Nat → PageResult) (fs : String → Bool)
    (count : Nat) (seen₀ : List String) (fuel : Nat) : Option (List String) :=
  (searchLoop oracle fs count fuel ⟨[], seen₀, 1, 0⟩).map (fun p => p.1)

/-! ### Retry-loop lemmas for `download_to_gcs_with_retries` -/

theorem downloadGo_all_fail (att : Nat → AttemptOutcome) (a b : String) :
    ∀ rem i le, (∀ j, j < rem → att (i + j) ≠ AttemptOutcome.ok) →
      ∃ msg, downloadGo att a b rem i le
        = (rem, (List.range' i rem).map (fun j => 2 ^ j), Except.error ⟨502, msg⟩) := by
  intro rem
  induction rem with
  | zero =>
    intro i le _
    exact ⟨_, rfl⟩
  | succ r ih =>
    intro i le hfail
    have h0 : att i ≠ AttemptOutcome.ok := by
      have := hfail 0 (Nat.succ_pos r)
      simpa using this
    have hlist : (List.range' i (r + 1)).map (fun j => (2 : Nat) ^ j)
        = 2 ^ i :: (List.range' (i + 1) r).map (fun j => 2 ^ j) := by
      rw [List.range'_succ i r 1, List.map_cons]
    have hrest : ∀ j, j < r → att (i + 1 + j) ≠ AttemptOutcome.ok := by
      intro j hj
      have hthis := hfail (j + 1) (by omega)
      have he : i + (j + 1) = i + 1 + j := by omega
      rw [he] at hthis
      exact hthis
    cases hatt : att i with
    | ok => exact absurd hatt h0
    | httpErr s b0 =>
      obtain ⟨msg, hrec⟩ := ih (i + 1) (some ("Download HTTP " ++ toString s ++ ": " ++ b0)) hrest
      refine ⟨msg, ?_⟩
      rw [downloadGo, hatt]
      dsimp only
      rw [hrec, hlist]
    | netErr m =>
      obtain ⟨msg, hrec⟩ := ih (i + 1) (some m) hrest
      refine ⟨msg, ?_⟩
      rw [downloadGo, hatt]
      dsimp only
      rw [hrec, hlist]

theorem downloadGo_first_ok (att : Nat → AttemptOutcome) (a b : String) :
    ∀ k rem i le, k < rem → att (i + k) = AttemptOutcome.ok →
      (∀ j, j < k → att (i + j) ≠ AttemptOutcome.ok) →
      downloadGo att a b rem i le
        = (k + 1, (List.range' i k).map (fun j => 2 ^ j),
           Except.ok ("gs://" ++ b ++ "/raw/" ++ a ++ ".mp4")) := by
  intro k
  induction k with
  | zero =>
    intro rem i le hk hok _
    cases rem with
    | zero => omega
    | succ r =>
      rw [downloadGo]
      simp only [Nat.add_zero] at hok
      rw [hok]
      rfl
  | succ k ih =>
    intro rem i le hk hok hfail
    cases rem with
    | zero => omega
    | succ r =>
      have h0 : att i ≠ AttemptOutcome.ok := by
        have := hfail 0 (Nat.succ_pos k)
        simpa using this
      have hok' : att (i + 1 + k) = AttemptOutcome.ok := by
        have he : i + (k + 1) = i + 1 + k := by omega
        rw [he] at hok
        exact hok
      have hfail' : ∀ j, j < k → att (i + 1 + j) ≠ AttemptOutcome.ok := by
        intro j hj
        have hthis := hfail (j + 1) (by omega)
        have he : i + (j + 1) = i + 1 + j := by omega
        rw [he] at hthis
        exact hthis
      have hlist : (List.range' i (k + 1)).map (fun j => (2 : Nat) ^ j)
          = 2 ^ i :: (List.range' (i + 1) k).map (fun j => 2 ^ j) := by
        rw [List.range'_succ i k 1, List.map_cons]
      cases hatt : att i with
      | ok => exact absurd hatt h0
      | httpErr s b0 =>
        rw [downloadGo, hatt]
        dsimp only
        rw [ih r (i + 1) (some ("Download HTTP " ++ toString s ++ ": " ++ b0)) (by omega) hok' hfail']
        rw [hlist]
      | netErr m =>
        rw [downloadGo, hatt]
        dsimp only
        rw [ih r (i + 1) (some m) (by omega) hok' hfail']
        rw [hlist]

/-! ## Claims -/

/-- C2: for every key of `incoming`, the merge result holds the recursive
    merge when both sides are dicts and the incoming value otherwise
    (arrays replaced wholesale); keys absent from `incoming` keep their
    existing value.  (`incoming` is a dict, so its keys are distinct.) -/
theorem deep_merge_key_spec (a b : Dict) (hb : (keys b).Nodup) (k : String) :
    (∀ d1 d2, lookup a k = some (JVal.dict d1) → lookup b k = some (JVal.dict d2) →
        lookup (deep_merge a b) k = some (JVal.dict (deep_merge d1 d2)))
    ∧ (∀ vb, lookup b k = some vb →
        (∀ d2, vb = JVal.dict d2 → ∀ d1, lookup a k ≠ some (JVal.dict d1)) →
        lookup (deep_merge a b) k = some vb)
    ∧ (∀ xs, lookup b k = some (JVal.arr xs) →
        lookup (deep_merge a b) k = some (JVal.arr xs))
    ∧ (lookup b k = none → lookup (deep_merge a b) k = lookup a k) := by
  refine ⟨?_, ?_, ?_, ?_⟩
  · intro d1 d2 ha hbk
    rw [lookup_deep_merge_of_right_some a hb hbk, ha]
    rfl
  · intro vb hbk hnd
    rw [lookup_deep_merge_of_right_some a hb hbk]
    cases vb with
    | dict d2 =>
      rcases hl : lookup a k with _ | w
      · rfl
      · cases w with
        | dict d1 => exact absurd hl (hnd d2 rfl d1)
        | str s => rfl
        | num n => rfl
        | bool b0 => rfl
        | null => rfl
        | arr xs => rfl
    | str s => rfl
    | num n => rfl
    | bool b0 => rfl
    | null => rfl
    | arr xs => rfl
  · intro xs hbk
    rw [lookup_deep_merge_of_right_some a hb hbk]
    rfl
  · exact lookup_deep_merge_of_right_none a

/-- Witness for C2 on concrete dicts: a nested dict is merged recursively,
    an array is replaced wholesale, and a key absent from the incoming
    dict is preserved. -/
theorem deep_merge_key_spec_witness :
    lookup
        (deep_merge
          [("a", JVal.num 1), ("b", JVal.dict [("x", JVal.num 1)]), ("c", JVal.arr [JVal.num 1])]
          [("b", JVal.dict [("y", JVal.num 2)]), ("c", JVal.arr [JVal.num 9]), ("d", JVal.num 4)])
        "b"
      = some (JVal.dict (deep_merge [("x", JVal.num 1)] [("y", JVal.num 2)]))
    ∧ lookup
        (deep_merge
          [("a", JVal.num 1), ("b", JVal.dict [("x", JVal.num 1)]), ("c", JVal.arr [JVal.num 1])]
          [("b", JVal.dict [("y", JVal.num 2)]), ("c", JVal.arr [JVal.num 9]), ("d", JVal.num 4)])
        "c"
      = some (JVal.arr [JVal.num 9])
    ∧ lookup
        (deep_merge
          [("a", JVal.num 1), ("b", JVal.dict [("x", JVal.num 1)]), ("c", JVal.arr [JVal.num 1])]
          [("b", JVal.dict [("y", JVal.num 2)]), ("c", JVal.arr [JVal.num 9]), ("d", JVal.num 4)])
        "a"
      = some (JVal.num 1) := by
  have h := deep_merge_key_spec
    [("a", JVal.num 1), ("b", JVal.dict [("x", JVal.num 1)]), ("c", JVal.arr [JVal.num 1])]
    [("b", JVal.dict [("y", JVal.num 2)]), ("c", JVal.arr [JVal.num 9]), ("d", JVal.num 4)]
    (by simp)
  refine ⟨h "b" |>.1 [("x", JVal.num 1)] [("y", JVal.num 2)] rfl rfl, ?_, ?_⟩
  · exact (h "c").2.2.1 [JVal.num 9] rfl
  · rw [(h "a").2.2.2 rfl]
    rfl

/-- C3: re-applying the merge of `a` onto its own merged result is the
    identity, for all well-formed (uniquely-keyed) nested dicts. -/
theorem deep_merge_idem (a b : Dict) (ha : wfl a = true) (hb : wfl b = true) :
    deep_merge a (deep_merge a b) = deep_merge a b :=
  deep_merge_idem_aux a b ha hb

/-- Witness for C3 on concrete nested dicts. -/
theorem deep_merge_idem_witness :
    wfl [("a", JVal.num 1), ("b", JVal.dict [("x", JVal.num 1), ("z", JVal.arr [JVal.num 3])])] = true
    ∧ wfl [("b", JVal.dict [("y", JVal.num 2), ("x", JVal.num 7)]), ("c", JVal.str "s")] = true
    ∧ deep_merge
        [("a", JVal.num 1), ("b", JVal.dict [("x", JVal.num 1), ("z", JVal.arr [JVal.num 3])])]
        (deep_merge
          [("a", JVal.num 1), ("b", JVal.dict [("x", JVal.num 1), ("z", JVal.arr [JVal.num 3])])]
          [("b", JVal.dict [("y", JVal.num 2), ("x", JVal.num 7)]), ("c", JVal.str "s")])
      = deep_merge
          [("a", JVal.num 1), ("b", JVal.dict [("x", JVal.num 1), ("z", JVal.arr [JVal.num 3])])]
          [("b", JVal.dict [("y", JVal.num 2), ("x", JVal.num 7)]), ("c", JVal.str "s")] :=
  ⟨rfl, rfl,
    deep_merge_idem
      [("a", JVal.num 1), ("b", JVal.dict [("x", JVal.num 1), ("z", JVal.arr [JVal.num 3])])]
      [("b", JVal.dict [("y", JVal.num 2), ("x", JVal.num 7)]), ("c", JVal.str "s")]
      rfl rfl⟩

/-- C10: `parse_gs_url` succeeds exactly on `gs://bucket/object` with a
    non-empty slash-free bucket and a non-empty object name, and the
    returned pair reconstructs the input exactly. -/
theorem parse_gs_url_spec :
    (∀ s : List Char,
        (∃ b o, parse_gs_url s = Except.ok (b, o)) ↔
          ∃ b o, s = gsPrefix ++ b ++ '/' :: o ∧ b ≠ [] ∧ '/' ∉ b ∧ o ≠ [])
    ∧ ∀ s b o, parse_gs_url s = Except.ok (b, o) →
        gsPrefix ++ b ++ '/' :: o = s ∧ b ≠ [] ∧ '/' ∉ b ∧ o ≠ [] := by
  constructor
  · intro s
    constructor
    · rintro ⟨b, o, h⟩
      obtain ⟨hs, hb, hnm, ho⟩ := (parse_gs_url_ok_iff s b o).1 h
      exact ⟨b, o, hs, hb, hnm, ho⟩
    · rintro ⟨b, o, hs, hb, hnm, ho⟩
      exact ⟨b, o, (parse_gs_url_ok_iff s b o).2 ⟨hs, hb, hnm, ho⟩⟩
  · intro s b o h
    obtain ⟨hs, hb, hnm, ho⟩ := (parse_gs_url_ok_iff s b o).1 h
    exact ⟨hs.symm, hb, hnm, ho⟩

/-- Witness for C10: the parser round-trips `gs://bkt/obj`. -/
theorem parse_gs_url_spec_witness :
    gsPrefix ++ "bkt".data ++ '/' :: "obj".data = "gs://bkt/obj".data
    ∧ "bkt".data ≠ [] ∧ '/' ∉ "bkt".data ∧ "obj".data ≠ [] :=
  parse_gs_url_spec.2 "gs://bkt/obj".data "bkt".data "obj".data rfl

/-- An attempt oracle whose first download answer is a non-transient
    HTTP 404, followed by a 200. -/
def att404 : Nat → AttemptOutcome :=
  fun i => if i = 0 then AttemptOutcome.httpErr 404 "Not Found" else AttemptOutcome.ok

/-- C5 counterexample: a non-transient 404 from the download endpoint is
    retried — the call succeeds on the second attempt after a backoff sleep
    instead of failing immediately with no retry. -/
theorem download_retries_nontransient_counterexample :
    download_to_gcs_with_retries att404 "a1" "bkt"
      = (2, [1], Except.ok "gs://bkt/raw/a1.mp4") := rfl

/-- C5 (amended): `call_service` performs at most one request per call (no
    retry at all), while `download_to_gcs_with_retries` retries EVERY
    failure — transport-level or any non-200 status, transient or not —
    sleeping `2 ^ attempt` between attempts, up to `MAX_DOWNLOAD_RETRIES`
    attempts, succeeding on the first 200 and returning a 502 error when
    all attempts fail. -/
theorem retry_policy_spec :
    (∀ (urls : Urls) (oracle : Oracle) (endpoint : String) (payload : Dict),
        (call_service urls oracle endpoint payload).1.length ≤ 1)
    ∧ (∀ (att : Nat → AttemptOutcome) (asset_id bucket : String),
        (∀ j, j < MAX_DOWNLOAD_RETRIES → att j ≠ AttemptOutcome.ok) →
        ∃ msg, download_to_gcs_with_retries att asset_id bucket
          = (MAX_DOWNLOAD_RETRIES, (List.range MAX_DOWNLOAD_RETRIES).map (fun j => 2 ^ j),
             Except.error ⟨502, msg⟩))
    ∧ (∀ (att : Nat → AttemptOutcome) (asset_id bucket : String) (k : Nat),
        k < MAX_DOWNLOAD_RETRIES → att k = AttemptOutcome.ok →
        (∀ j, j < k → att j ≠ AttemptOutcome.ok) →
        download_to_gcs_with_retries att asset_id bucket
          = (k + 1, (List.range k).map (fun j => 2 ^ j),
             Except.ok ("gs://" ++ bucket ++ "/raw/" ++ asset_id ++ ".mp4"))) := by
  refine ⟨?_, ?_, ?_⟩
  · intro urls oracle endpoint payload
    rw [call_service]
    cases urls endpoint with
    | none => simp
    | some u =>
      cases oracle endpoint payload with
      | success body => simp
      | failure st b => simp
  · intro att asset_id bucket hfail
    obtain ⟨msg, h⟩ := downloadGo_all_fail att asset_id bucket MAX_DOWNLOAD_RETRIES 0 none
      (by intro j hj; simpa using hfail j hj)
    refine ⟨msg, ?_⟩
    rw [download_to_gcs_with_retries, h, List.range_eq_range']
  · intro att asset_id bucket k hk hok hfail
    rw [download_to_gcs_with_retries,
      downloadGo_first_ok att asset_id bucket k MAX_DOWNLOAD_RETRIES 0 none hk
        (by simpa using hok) (by intro j hj; simpa using hfail j hj),
      List.range_eq_range']

/-- Witness for C5: a run where every attempt fails (all five are issued,
    with sleeps 1,2,4,8,16) and a run succeeding at the third attempt. -/
theorem retry_policy_spec_witness :
    (call_service (fun _ => some "u") (fun _ _ => CallResult.failure 400 "bad") "enrich" []).1.length ≤ 1
    ∧ (∃ msg,
        download_to_gcs_with_retries (fun _ => AttemptOutcome.netErr "down") "a" "b"
          = (MAX_DOWNLOAD_RETRIES, (List.range MAX_DOWNLOAD_RETRIES).map (fun j => 2 ^ j),
             Except.error ⟨502, msg⟩))
    ∧ download_to_gcs_with_retries
        (fun i => if i < 2 then AttemptOutcome.httpErr 503 "busy" else AttemptOutcome.ok) "a" "b"
      = (3, (List.range 2).map (fun j => 2 ^ j), Except.ok "gs://b/raw/a.mp4") := by
  refine ⟨retry_policy_spec.1 (fun _ => some "u") (fun _ _ => CallResult.failure 400 "bad") "enrich" [],
    retry_policy_spec.2.1 (fun _ => AttemptOutcome.netErr "down") "a" "b" (by intro j hj; simp),
    retry_policy_spec.2.2
      (fun i => if i < 2 then AttemptOutcome.httpErr 503 "busy" else AttemptOutcome.ok) "a" "b" 2
      (by decide) (by simp) (by intro j hj; simp [hj])⟩

/-- C6 counterexample: an explicit licensing rejection (HTTP 403) from the
    Getty video download endpoint is propagated as an HTTP error after a
    single request — no preview-representation URL tagged
    `source="preview"` is ever produced (no such fallback exists). -/
theorem licensed_download_no_preview_counterexample :
    get_video_download_url (HttpAttempt.resp 403 "License rejected" none)
      = (1, Except.error ⟨403, "Getty video download failed: License rejected"⟩) := rfl

/-- C6 (amended): a rejected licensed-acquisition attempt is not retried —
    exactly one request is made to the licensed endpoint — and the
    rejection is surfaced as an HTTP error carrying the endpoint's status;
    there is no preview fallback path in the ingestor. -/
theorem licensed_download_rejection_spec (st : Nat) (text : String) (uri : Option String)
    (h : ¬ st = 200) :
    get_video_download_url (HttpAttempt.resp st text uri)
      = (1, Except.error ⟨st, "Getty video download failed: " ++ text⟩) := by
  simp only [get_video_download_url]
  rw [if_neg h]

/-- Witness for C6 at a concrete rejection. -/
theorem licensed_download_rejection_spec_witness :
    get_video_download_url (HttpAttempt.resp 403 "denied" (some "https://x"))
      = (1, Except.error ⟨403, "Getty video download failed: denied"⟩) :=
  licensed_download_rejection_spec 403 "denied" (some "https://x") (by decide)

/-- C7: a token request inside the cached validity window returns the
    cached token with zero acquisition calls; two sequential requests whose
    second falls inside the window issue exactly one underlying OAuth2 call
    in total; a request at or past the (60s-early) refresh threshold issues
    exactly one acquisition call. -/
theorem token_cache_spec :
    (∀ (st : TokenState) (now : Int) (resp : TokenResp) (t : String),
        st.token = some t → ¬ t = "" → now < st.expiry - 60 →
        get_getty_access_token st now resp = (0, st, Except.ok t))
    ∧ (∀ (now₁ now₂ : Int) (tok : String) (exp : Int) (resp₁ resp₂ : TokenResp), ¬ tok = "" →
        get_getty_access_token ⟨none, 0⟩ now₁ (TokenResp.payload (some tok) (some exp))
          = (1, ⟨some tok, now₁ + exp⟩, Except.ok tok)
        ∧ (now₂ < now₁ + exp - 60 →
            get_getty_access_token ⟨some tok, now₁ + exp⟩ now₂ resp₂
              = (0, ⟨some tok, now₁ + exp⟩, Except.ok tok)))
    ∧ (∀ (st : TokenState) (now : Int) (resp : TokenResp),
        st.expiry - 60 ≤ now → (get_getty_access_token st now resp).1 = 1) := by
  refine ⟨?_, ?_, ?_⟩
  · intro st now resp t ht hne hwin
    obtain ⟨tok, exp⟩ := st
    simp only at ht
    subst ht
    simp [get_getty_access_token, hne, hwin]
  · intro now₁ now₂ tok exp resp₁ resp₂ hne
    constructor
    · rfl
    · intro hwin
      simp [get_getty_access_token, hne]
      omega
  · intro st now resp hexp
    obtain ⟨tok, exp⟩ := st
    simp only at hexp
    rw [get_getty_access_token.eq_def]
    rw [if_neg (by simp; intro _; omega)]
    cases resp with
    | netErr m => rfl
    | httpErr s b => rfl
    | payload tok exp =>
      cases tok with
      | none => rfl
      | some t => rfl

/-- Witness for C7 at concrete times: acquire at t=0 with a 1800s token,
    hit the cache at t=1000, observe a refresh attempt at t=1800. -/
theorem token_cache_spec_witness :
    get_getty_access_token ⟨none, 0⟩ 0 (TokenResp.payload (some "tk") (some 1800))
      = (1, ⟨some "tk", 1800⟩, Except.ok "tk")
    ∧ get_getty_access_token ⟨some "tk", 1800⟩ 1000 (TokenResp.netErr "x")
      = (0, ⟨some "tk", 1800⟩, Except.ok "tk")
    ∧ (get_getty_access_token ⟨some "tk", 1800⟩ 1800 (TokenResp.netErr "x")).1 = 1 := by
  refine ⟨(token_cache_spec.2.1 0 1000 "tk" 1800 (TokenResp.netErr "x") (TokenResp.netErr "x")
      (by decide)).1, ?_, ?_⟩
  · have h := (token_cache_spec.2.1 0 1000 "tk" 1800 (TokenResp.netErr "x") (TokenResp.netErr "x")
      (by decide)).2 (by decide)
    simpa using h
  · exact token_cache_spec.2.2 ⟨some "tk", 1800⟩ 1800 (TokenResp.netErr "x") (by decide)

/-! ### C8: the paginated search loop -/

theorem searchLoop_empty_pages (fs : String → Bool) (count : Nat) :
    ∀ fuel (st : SearchSt), st.ids.length < count →
      searchLoop (fun _ => PageResult.page []) fs count fuel st = none := by
  intro fuel
  induction fuel with
  | zero => intro st _; rfl
  | succ f ih =>
    intro st hlt
    rw [searchLoop, if_pos hlt]
    exact ih ⟨st.ids, st.seen, st.page + 1, st.req + 1⟩ hlt

/-- With every catalog page empty (the catalog exhausted) and `count = 1`,
    `search_downloadable_asset_ids` never returns, whatever the fuel: the
    `while` loop pages forever instead of failing. -/
def searchExhaustedDiverges : Prop :=
  ∀ fuel,
    search_downloadable_asset_ids (fun _ => PageResult.page []) (fun _ => false) 1 [] fuel = none

theorem processVideos_spec (fs : String → Bool) (count : Nat) :
    ∀ (videos : List (Option String × Option String)) (ids seen ids' seen' : List String),
      processVideos fs count videos ids seen = (ids', seen') →
      ids.length < count → ids.Nodup → (∀ x ∈ ids, x ∈ seen) →
      ids'.length ≤ count ∧ ids'.Nodup ∧ (∀ x ∈ ids', x ∈ seen')
      ∧ (∀ x ∈ ids', x ∈ ids ∨ (x ∉ seen ∧ fs x = false))
      ∧ (∀ x ∈ seen, x ∈ seen') := by
  intro videos
  induction videos with
  | nil =>
    intro ids seen ids' seen' hp hlt hnd hsub
    rw [processVideos] at hp
    cases hp
    exact ⟨Nat.le_of_lt hlt, hnd, hsub, fun x hx => Or.inl hx, fun x hx => hx⟩
  | cons v rest ih =>
    intro ids seen ids' seen' hp hlt hnd hsub
    obtain ⟨vid?, url?⟩ := v
    cases vid? with
    | none =>
      rw [processVideos] at hp
      exact ih ids seen ids' seen' hp hlt hnd hsub
    | some vid =>
      cases url? with
      | none =>
        rw [processVideos] at hp
        exact ih ids seen ids' seen' hp hlt hnd hsub
      | some url =>
        rw [processVideos] at hp
        by_cases hemp : vid = "" ∨ url = ""
        · rw [if_pos hemp] at hp
          exact ih ids seen ids' seen' hp hlt hnd hsub
        · rw [if_neg hemp] at hp
          by_cases hseen : vid ∈ seen
          · rw [if_pos hseen] at hp
            exact ih ids seen ids' seen' hp hlt hnd hsub
          · rw [if_neg hseen] at hp
            by_cases hfs : fs vid = true
            · rw [if_pos hfs] at hp
              obtain ⟨h1, h2, h3, h4, h5⟩ :=
                ih ids (vid :: seen) ids' seen' hp hlt hnd
                  (fun x hx => List.mem_cons_of_mem _ (hsub x hx))
              refine ⟨h1, h2, h3, ?_, fun x hx => h5 x (List.mem_cons_of_mem _ hx)⟩
              intro x hx
              rcases h4 x hx with hx' | ⟨hx1, hx2⟩
              · exact Or.inl hx'
              · exact Or.inr ⟨fun hc => hx1 (List.mem_cons_of_mem _ hc), hx2⟩
            · rw [if_neg hfs] at hp
              have hvid_not_ids : vid ∉ ids := fun hc => hseen (hsub vid hc)
              have hnd' : (ids ++ [vid]).Nodup := by
                rw [List.nodup_append]
                exact ⟨hnd, List.nodup_singleton vid,
                  by intro x hx hc; simp at hc; subst hc; exact hvid_not_ids hx⟩
              have hsub' : ∀ x ∈ ids ++ [vid], x ∈ vid :: seen := by
                intro x hx
                rcases List.mem_append.1 hx with hx | hx
                · exact List.mem_cons_of_mem _ (hsub x hx)
                · simp at hx; subst hx; exact List.mem_cons_self _ _
              by_cases hfull : count ≤ (ids ++ [vid]).length
              · rw [if_pos hfull] at hp
                cases hp
                have hlen : (ids ++ [vid]).length ≤ count := by
                  rw [List.length_append]
                  simpa using hlt
                refine ⟨hlen, hnd', hsub', ?_, fun x hx => List.mem_cons_of_mem _ hx⟩
                intro x hx
                rcases List.mem_append.1 hx with hx | hx
                · exact Or.inl hx
                · simp at hx; subst hx
                  exact Or.inr ⟨hseen, by simpa using hfs⟩
              · rw [if_neg hfull] at hp
                obtain ⟨h1, h2, h3, h4, h5⟩ :=
                  ih (ids ++ [vid]) (vid :: seen) ids' seen' hp (by omega) hnd' hsub'
                refine ⟨h1, h2, h3, ?_, fun x hx => h5 x (List.mem_cons_of_mem _ hx)⟩
                intro x hx
                rcases h4 x hx with hx' | ⟨hx1, hx2⟩
                · rcases List.mem_append.1 hx' with hx' | hx'
                  · exact Or.inl hx'
                  · simp at hx'; subst hx'
                    exact Or.inr ⟨hseen, by simpa using hfs⟩
                · exact Or.inr ⟨fun hc => hx1 (List.mem_cons_of_mem _ hc), hx2⟩

theorem searchLoop_spec (oracle : Nat → PageResult) (fs : String → Bool) (count : Nat)
    (seen₀ : List String) :
    ∀ fuel (st : SearchSt) (ids : List String) (st' : SearchSt),
      searchLoop oracle fs count fuel st = some (ids, st') →
      st.ids.length ≤ count → st.ids.Nodup → (∀ x ∈ st.ids, x ∈ st.seen) →
      (∀ x ∈ seen₀, x ∈ st.seen) → (∀ x ∈ st.ids, x ∉ seen₀ ∧ fs x = false) →
      ids.length = count ∧ ids.Nodup ∧ ∀ x ∈ ids, x ∉ seen₀ ∧ fs x = false := by
  intro fuel
  induction fuel with
  | zero => intro st ids st' hp; cases hp
  | succ f ih =>
    intro st ids st' hp hle hnd hsub hseen₀ hfresh
    rw [searchLoop] at hp
    by_cases hlt : st.ids.length < count
    · rw [if_pos hlt] at hp
      cases horacle : oracle st.req with
      | netErr m =>
        rw [horacle] at hp
        exact ih _ ids st' hp hle hnd hsub hseen₀ hfresh
      | httpErr s b =>
        rw [horacle] at hp
        exact ih _ ids st' hp hle hnd hsub hseen₀ hfresh
      | page videos =>
        rw [horacle] at hp
        dsimp only at hp
        rcases hpv : processVideos fs count videos st.ids st.seen with ⟨ids₁, seen₁⟩
        rw [hpv] at hp
        obtain ⟨h1, h2, h3, h4, h5⟩ :=
          processVideos_spec fs count videos st.ids st.seen ids₁ seen₁ hpv hlt hnd hsub
        refine ih ⟨ids₁, seen₁, st.page + 1, st.req + 1⟩ ids st' hp h1 h2 h3
          (fun x hx => h5 x (hseen₀ x hx)) ?_
        intro x hx
        rcases h4 x hx with hx' | ⟨hx1, hx2⟩
        · exact hfresh x hx'
        · exact ⟨fun hc => hx1 (hseen₀ x hc), hx2⟩
    · rw [if_neg hlt] at hp
      simp only [Option.some_inj, Prod.mk.injEq] at hp
      obtain ⟨h1, _⟩ := hp
      subst h1
      exact ⟨by omega, hnd, hfresh⟩

/-- C8 counterexample: the search does NOT terminate on every input — on an
    exhausted catalog (every page empty) it never fails with an error; it
    pages forever, returning nothing at any fuel. -/
theorem search_exhausted_never_returns : searchExhaustedDiverges := by
  intro fuel
  rw [search_downloadable_asset_ids,
    searchLoop_empty_pages (fun _ => false) 1 fuel ⟨[], [], 1, 0⟩ (by decide)]
  rfl

/-- A two-candidate catalog page for the C8 witness. -/
def pageOracleW : Nat → PageResult :=
  fun _ => PageResult.page [(some "v1", some "u1"), (some "v2", some "u2")]

/-- C8 (amended): whenever the search returns, it returns exactly `count`
    distinct identifiers, none previously consumed in the process lifetime
    (`_seen_ids`) and none already present in the persistent store; but on
    a starved catalog the loop never returns (it pages forever) instead of
    failing with an error. -/
theorem search_pagination_spec :
    (∀ (oracle : Nat → PageResult) (fs : String → Bool) (count : Nat) (seen₀ : List String)
        (fuel : Nat) (ids : List String),
        search_downloadable_asset_ids oracle fs count seen₀ fuel = some ids →
        ids.length = count ∧ ids.Nodup ∧ ∀ x ∈ ids, x ∉ seen₀ ∧ fs x = false)
    ∧ searchExhaustedDiverges := by
  constructor
  · intro oracle fs count seen₀ fuel ids h
    rw [search_downloadable_asset_ids] at h
    rcases hl : searchLoop oracle fs count fuel ⟨[], seen₀, 1, 0⟩ with _ | p
    · rw [hl] at h; cases h
    · obtain ⟨ids₁, st'⟩ := p
      rw [hl] at h
      have h' : ids₁ = ids := by simpa using h
      subst h'
      exact searchLoop_spec oracle fs count seen₀ fuel ⟨[], seen₀, 1, 0⟩ ids₁ st' hl
        (by simp) (by simp) (by simp) (fun x hx => hx) (by simp)
  · intro fuel
    rw [search_downloadable_asset_ids,
      searchLoop_empty_pages (fun _ => false) 1 fuel ⟨[], [], 1, 0⟩ (by decide)]
    rfl

/-- Witness for C8: a concrete two-page search returning two fresh ids. -/
theorem search_pagination_spec_witness :
    search_downloadable_asset_ids pageOracleW (fun _ => false) 2 ["v0"] 2
      = some ["v1", "v2"]
    ∧ ["v1", "v2"].length = 2 ∧ ["v1", "v2"].Nodup
    ∧ ("v1" ∉ ["v0"] ∧ (fun _ => false) "v1" = false)
    ∧ ("v2" ∉ ["v0"] ∧ (fun _ => false) "v2" = false) := by
  have h := search_pagination_spec.1 pageOracleW (fun _ => false) 2 ["v0"] 2 ["v1", "v2"] rfl
  exact ⟨rfl, h.1, h.2.1, h.2.2 "v1" (by simp), h.2.2 "v2" (by simp)⟩

/-! ### C1: a hard stage failure aborts the run -/

/-- A run observation is abort-correct when any traced call that came back
    as a hard failure is the last call issued, and the run's result is
    exactly that failure propagated as an HTTP error. -/
def TraceOk {α : Type} (p : List Call × Except HTTPError α) : Prop :=
  ∀ c ∈ p.1, ∀ st b, c.result = CallResult.failure st b →
    p.1.getLast? = some c ∧ p.2 = Except.error ⟨st, b⟩

theorem traceOk_pure {α : Type} (r : Except HTTPError α) : TraceOk (([] : List Call), r) := by
  intro c hc
  simp at hc

theorem traceOk_call_service (urls : Urls) (oracle : Oracle) (e : String) (p : Dict) :
    TraceOk (call_service urls oracle e p) := by
  rw [call_service]
  cases urls e with
  | none => exact traceOk_pure _
  | some u =>
    cases oracle e p with
    | success body =>
      intro c hc st b hres
      rw [List.mem_singleton] at hc
      subst hc
      cases hres
    | failure st₀ b₀ =>
      intro c hc st b hres
      rw [List.mem_singleton] at hc
      subst hc
      cases hres
      exact ⟨rfl, rfl⟩

theorem traceOk_andThen {α β : Type} {st : List Call × Except HTTPError α}
    {f : α → List Call × Except HTTPError β}
    (h1 : TraceOk st) (h2 : ∀ a, TraceOk (f a)) : TraceOk (andThen st f) := by
  obtain ⟨t, r⟩ := st
  cases r with
  | error e =>
    intro c hc st b hres
    obtain ⟨hl, hr⟩ := h1 c hc st b hres
    have he : e = ⟨st, b⟩ := by injection hr
    exact ⟨hl, by subst he; rfl⟩
  | ok a =>
    rcases hf : f a with ⟨t₂, r₂⟩
    have he : andThen (t, Except.ok a) f = (t ++ t₂, r₂) := by
      rw [andThen, hf]
    rw [he]
    intro c hc stc bc hres
    rcases List.mem_append.1 hc with hct | hct₂
    · exact absurd (h1 c hct stc bc hres).2 (by simp)
    · have h2' := h2 a
      rw [hf] at h2'
      obtain ⟨hl, hr⟩ := h2' c hct₂ stc bc hres
      have ht₂ : t₂ ≠ [] := by
        intro hnil
        subst hnil
        simp at hl
      refine ⟨?_, hr⟩
      rw [List.getLast?_append_of_ne_nil t ht₂]
      exact hl

theorem traceOk_runStep1 (urls : Urls) (oracle : Oracle) (payload : Dict) :
    TraceOk (runStep1 urls oracle payload) := by
  rw [runStep1]
  by_cases hg : transcodeGate payload
  · rw [if_pos hg]
    refine traceOk_andThen (traceOk_call_service urls oracle "transcode" payload) ?_
    intro tjson
    dsimp only
    rcases haud : audioStatusOf (deep_merge payload tjson) with e | astat
    · exact traceOk_pure _
    · exact traceOk_pure _
  · rw [if_neg hg]
    exact traceOk_pure _

theorem traceOk_runStep3to5 (urls : Urls) (oracle : Oracle) (now : String) (payload m₂ : Dict) :
    TraceOk (runStep3to5 urls oracle now payload m₂) := by
  rw [runStep3to5]
  refine traceOk_andThen ?_ ?_
  · by_cases hg : transcodeGate payload
    · rw [if_pos hg]
      exact traceOk_andThen (traceOk_call_service urls oracle "sample" m₂)
        (fun fj => traceOk_pure _)
    · rw [if_neg hg]
      exact traceOk_pure _
  · intro m₃
    refine traceOk_andThen (traceOk_call_service urls oracle "enrich" m₃) ?_
    intro ej
    exact traceOk_andThen (traceOk_call_service urls oracle "store" _)
      (fun stored => traceOk_pure _)

theorem traceOk_runStep2to5 (urls : Urls) (oracle : Oracle) (now : String) (payload : Dict)
    (ma : Dict × Option JVal) : TraceOk (runStep2to5 urls oracle now payload ma) := by
  rw [runStep2to5]
  refine traceOk_andThen ?_ (fun m₂ => traceOk_runStep3to5 urls oracle now payload m₂)
  by_cases hg : shouldTranscribe payload ma.2
  · rw [if_pos hg]
    exact traceOk_andThen (traceOk_call_service urls oracle "transcribe" ma.1)
      (fun trj => traceOk_pure _)
  · rw [if_neg hg]
    exact traceOk_pure _

/-- C1 (amended): if some stage call of a run comes back as a hard failure,
    the executor issues no further stage calls — the failing call is the
    last one in the trace — and the run's result is that failure's status
    and body propagated as an HTTP error (not a completion report carrying
    the partial record, a `pipeline_status` field, or the stage name). -/
theorem run_all_hard_failure_aborts (urls : Urls) (oracle : Oracle) (now : String) (data : Dict) :
    ∀ c ∈ (run_all urls oracle now data).1, ∀ st b, c.result = CallResult.failure st b →
      (run_all urls oracle now data).1.getLast? = some c
      ∧ (run_all urls oracle now data).2 = Except.error ⟨st, b⟩ := by
  have h : TraceOk (run_all urls oracle now data) := by
    rw [run_all]
    cases build_initial_payload data with
    | error e => exact traceOk_pure _
    | ok payload =>
      exact traceOk_andThen (traceOk_runStep1 urls oracle payload)
        (traceOk_runStep2to5 urls oracle now payload)
  exact h

/-- Configured URLs for the concrete executor runs. -/
def urlsW : Urls := fun _ => some "https://svc"

/-- An oracle whose transcode stage hard-fails with a 500. -/
def oracleFailW : Oracle :=
  fun e _ => if e = "transcode" then CallResult.failure 500 "boom" else CallResult.success []

/-- A GCS-shape raw input (`file_name` + `bucket`). -/
def dataW : Dict := [("file_name", JVal.str "raw/clip1.mp4"), ("bucket", JVal.str "bkt")]

/-- The payload the normalizer builds from `dataW`. -/
def payloadW : Dict :=
  [("asset_id", JVal.str "clip1"),
   ("file_name", JVal.str "raw/clip1.mp4"),
   ("bucket", JVal.str "bkt"),
   ("source", JVal.str "local"),
   ("asset_type", JVal.str "video"),
   ("paths", JVal.dict [("raw", JVal.str "gs://bkt/raw/clip1.mp4")])]

/-- Witness for C1 at a concrete run whose transcode call hard-fails. -/
theorem run_all_hard_failure_aborts_witness :
    (run_all urlsW oracleFailW "T" dataW).1.getLast?
        = some ⟨"transcode", payloadW, CallResult.failure 500 "boom"⟩
    ∧ (run_all urlsW oracleFailW "T" dataW).2 = Except.error ⟨500, "boom"⟩ :=
  run_all_hard_failure_aborts urlsW oracleFailW "T" dataW
    ⟨"transcode", payloadW, CallResult.failure 500 "boom"⟩
    (by rw [show (run_all urlsW oracleFailW "T" dataW).1
          = [⟨"transcode", payloadW, CallResult.failure 500 "boom"⟩] from rfl]
        exact List.mem_singleton.mpr rfl)
    500 "boom" rfl

/-- C1 counterexample: in a run whose transcode stage hard-fails, the
    result is a propagated HTTP error `⟨500, "boom"⟩` — the downstream
    status and body — and NOT a completion report with
    `pipeline_status = "failed"`, the partial Accumulated Record, and a
    diagnostic naming the failing stage; only the failing call was issued. -/
theorem run_all_failure_report_counterexample :
    (run_all urlsW oracleFailW "T" dataW).2 = Except.error ⟨500, "boom"⟩
    ∧ (run_all urlsW oracleFailW "T" dataW).1
        = [⟨"transcode", payloadW, CallResult.failure 500 "boom"⟩] :=
  ⟨rfl, rfl⟩

/-! ### C9: the input normalizer -/

/-- The asset-type enum of the data model. -/
def assetTypeEnum (t : String) : Prop :=
  t = "video" ∨ t = "image" ∨ t = "audio" ∨ t = "unknown"

theorem detect_mem_enum (f : String) :
    assetTypeEnum (detect_asset_type_from_filename f) := by
  rw [detect_asset_type_from_filename]
  dsimp only
  split
  · exact Or.inl rfl
  · split
    · exact Or.inr (Or.inl rfl)
    · split
      · exact Or.inr (Or.inr (Or.inl rfl))
      · exact Or.inr (Or.inr (Or.inr rfl))

theorem string_mk_ne_empty {l : List Char} (h : ¬ l = []) : ¬ String.mk l = "" := by
  intro he
  have hd := congrArg String.data he
  exact h hd

/-- A byte-shape raw input whose declared media type is `gif`. -/
def dataGif : Dict := [("media_bytes", JVal.str "Ym9keQ=="), ("media_type", JVal.str "gif")]

/-- C9 counterexample: the direct-upload shape copies the caller's
    `media_type` into `asset_type` unvalidated — `gif` is not a value of
    the asset-type enum (video | image | audio | unknown). -/
theorem normalizer_asset_type_counterexample :
    build_initial_payload dataGif
      = Except.ok
          [("asset_id", JVal.str "direct_upload"),
           ("source", JVal.str "upload"),
           ("media_type", JVal.str "gif"),
           ("media_bytes", JVal.str "Ym9keQ=="),
           ("asset_type", JVal.str "gif")]
    ∧ ¬ assetTypeEnum "gif" :=
  ⟨rfl, by rw [assetTypeEnum]; decide⟩

theorem buildFromMediaUrl_spec (data : Dict) (mu : JVal) (payload : Dict)
    (hb : buildFromMediaUrl data mu = Except.ok payload)
    (hid : ∀ v, lookup data "asset_id" = some v → ∃ s, v = JVal.str s ∧ ¬ s = "")
    (hmt : ∀ v, lookup data "media_type" = some v →
      v = JVal.str "video" ∨ v = JVal.str "image" ∨ v = JVal.str "audio") :
    (∃ s, lookup payload "asset_id" = some (JVal.str s) ∧ ¬ s = "")
    ∧ ∃ t, lookup payload "asset_type" = some (JVal.str t) ∧ assetTypeEnum t := by
  cases mu with
  | str u =>
    rw [buildFromMediaUrl] at hb
    rcases hp : parse_gs_url u.data with e | bo
    · rw [hp] at hb; cases hb
    · obtain ⟨bucket, object_name⟩ := bo
      rw [hp] at hb
      dsimp only at hb
      injection hb with hb
      subst hb
      by_cases hg : truthy ((lookup data "getty_metadata").getD (JVal.dict [])) = true
      · rw [if_pos hg]
        constructor
        · rcases haid : lookup data "asset_id" with _ | v
          · exact ⟨"getty_asset", by rfl, by decide⟩
          · obtain ⟨s, hs, hne⟩ := hid v haid
            subst hs
            exact ⟨s, by rfl, hne⟩
        · rcases hmtv : lookup data "media_type" with _ | v
          · exact ⟨detect_asset_type_from_filename (String.mk object_name), by rfl,
              detect_mem_enum _⟩
          · rcases hmt v hmtv with hv | hv | hv
            · subst hv
              exact ⟨"video", by rfl, Or.inl rfl⟩
            · subst hv
              exact ⟨"image", by rfl, Or.inr (Or.inl rfl)⟩
            · subst hv
              exact ⟨"audio", by rfl, Or.inr (Or.inr (Or.inl rfl))⟩
      · rw [if_neg hg]
        constructor
        · rcases haid : lookup data "asset_id" with _ | v
          · exact ⟨"getty_asset", by rfl, by decide⟩
          · obtain ⟨s, hs, hne⟩ := hid v haid
            subst hs
            exact ⟨s, by rfl, hne⟩
        · rcases hmtv : lookup data "media_type" with _ | v
          · exact ⟨detect_asset_type_from_filename (String.mk object_name), by rfl,
              detect_mem_enum _⟩
          · rcases hmt v hmtv with hv | hv | hv
            · subst hv
              exact ⟨"video", by rfl, Or.inl rfl⟩
            · subst hv
              exact ⟨"image", by rfl, Or.inr (Or.inl rfl)⟩
            · subst hv
              exact ⟨"audio", by rfl, Or.inr (Or.inr (Or.inl rfl))⟩
  | num n =>
    rw [buildFromMediaUrl] at hb
    · cases hb
    · intro s h
      cases h
  | bool b0 =>
    rw [buildFromMediaUrl] at hb
    · cases hb
    · intro s h
      cases h
  | null =>
    rw [buildFromMediaUrl] at hb
    · cases hb
    · intro s h
      cases h
  | arr xs =>
    rw [buildFromMediaUrl] at hb
    · cases hb
    · intro s h
      cases h
  | dict kvs =>
    rw [buildFromMediaUrl] at hb
    · cases hb
    · intro s h
      cases h

theorem buildRest_spec (data : Dict) (payload : Dict)
    (hb : buildRest data = Except.ok payload)
    (hid : ∀ v, lookup data "asset_id" = some v → ∃ s, v = JVal.str s ∧ ¬ s = "")
    (hfn : ∀ v, lookup data "file_name" = some v →
      ∃ f, v = JVal.str f ∧ ¬ (splitext (basename f.data)).1 = []) :
    (∃ s, lookup payload "asset_id" = some (JVal.str s) ∧ ¬ s = "")
    ∧ ∃ t, lookup payload "asset_type" = some (JVal.str t) ∧ assetTypeEnum t := by
  rw [buildRest] at hb
  rcases hfnv : lookup data "file_name" with _ | fn <;>
    rcases hbk : lookup data "bucket" with _ | bk <;>
    rw [hfnv, hbk] at hb <;> dsimp only at hb
  case some.some =>
    obtain ⟨f, hf, hstem⟩ := hfn fn hfnv
    subst hf
    injection hb with hb
    subst hb
    refine ⟨⟨String.mk (splitext (basename f.data)).1, by rfl, string_mk_ne_empty hstem⟩, ?_⟩
    exact ⟨detect_asset_type_from_filename f, by rfl, detect_mem_enum f⟩
  all_goals
    rcases hurl : lookup data "url" with _ | u
  all_goals rw [hurl] at hb
  all_goals cases hb
  all_goals
    refine ⟨?_, "unknown", by rfl, Or.inr (Or.inr (Or.inr rfl))⟩
  all_goals
    rcases haid : lookup data "asset_id" with _ | v
  · exact ⟨"url_asset", by rfl, by decide⟩
  · obtain ⟨s, hs, hne⟩ := hid v haid
    subst hs
    exact ⟨s, by rfl, hne⟩
  · exact ⟨"url_asset", by rfl, by decide⟩
  · obtain ⟨s, hs, hne⟩ := hid v haid
    subst hs
    exact ⟨s, by rfl, hne⟩
  · exact ⟨"url_asset", by rfl, by decide⟩
  · obtain ⟨s, hs, hne⟩ := hid v haid
    subst hs
    exact ⟨s, by rfl, hne⟩

/-- C9 (amended): on every recognized input shape the normalizer emits a
    non-empty string `asset_id` and an `asset_type` drawn from the
    video | image | audio | unknown enum, PROVIDED any caller-supplied
    `asset_id` is a non-empty string, any declared `media_type` names one
    of the media kinds, and any `file_name` is a string whose basename has
    a non-empty stem. -/
theorem normalizer_spec (data : Dict) (payload : Dict)
    (hb : build_initial_payload data = Except.ok payload)
    (hid : ∀ v, lookup data "asset_id" = some v → ∃ s, v = JVal.str s ∧ ¬ s = "")
    (hmt : ∀ v, lookup data "media_type" = some v →
      v = JVal.str "video" ∨ v = JVal.str "image" ∨ v = JVal.str "audio")
    (hfn : ∀ v, lookup data "file_name" = some v →
      ∃ f, v = JVal.str f ∧ ¬ (splitext (basename f.data)).1 = []) :
    (∃ s, lookup payload "asset_id" = some (JVal.str s) ∧ ¬ s = "")
    ∧ ∃ t, lookup payload "asset_type" = some (JVal.str t) ∧ assetTypeEnum t := by
  rw [build_initial_payload] at hb
  rcases hmu : lookup data "media_url" with _ | mu
  swap
  · rw [hmu] at hb
    exact buildFromMediaUrl_spec data mu payload hb hid hmt
  rw [hmu] at hb
  dsimp only at hb
  rcases hmb : lookup data "media_bytes" with _ | mb
  · rw [hmb] at hb
    exact buildRest_spec data payload hb hid hfn
  · rw [hmb] at hb
    dsimp only at hb
    by_cases hsrc : isStrEq (lookup data "source") "getty" = true
    · rw [if_pos hsrc] at hb
      rcases hmtv : lookup data "media_type" with _ | mt
      · rw [hmtv] at hb
        cases hb
      · rw [hmtv] at hb
        injection hb with hb
        subst hb
        constructor
        · rcases haid : lookup data "asset_id" with _ | v
          · exact ⟨"getty_asset", by rfl, by decide⟩
          · obtain ⟨s, hs, hne⟩ := hid v haid
            subst hs
            exact ⟨s, by rfl, hne⟩
        · rcases hmt mt hmtv with hv | hv | hv
          · subst hv
            exact ⟨"video", by rfl, Or.inl rfl⟩
          · subst hv
            exact ⟨"image", by rfl, Or.inr (Or.inl rfl)⟩
          · subst hv
            exact ⟨"audio", by rfl, Or.inr (Or.inr (Or.inl rfl))⟩
    · rw [if_neg hsrc] at hb
      rcases hmtv : lookup data "media_type" with _ | mt
      · rw [hmtv] at hb
        exact buildRest_spec data payload hb hid hfn
      · rw [hmtv] at hb
        injection hb with hb
        subst hb
        constructor
        · rcases haid : lookup data "asset_id" with _ | v
          · exact ⟨"direct_upload", by rfl, by decide⟩
          · obtain ⟨s, hs, hne⟩ := hid v haid
            subst hs
            exact ⟨s, by rfl, hne⟩
        · rcases hmt mt hmtv with hv | hv | hv
          · subst hv
            exact ⟨"video", by rfl, Or.inl rfl⟩
          · subst hv
            exact ⟨"image", by rfl, Or.inr (Or.inl rfl)⟩
          · subst hv
            exact ⟨"audio", by rfl, Or.inr (Or.inr (Or.inl rfl))⟩

/-- Witness for C9 on the GCS shape `file_name` + `bucket`. -/
theorem normalizer_spec_witness :
    (∃ s, lookup
        [("asset_id", JVal.str "clip1"),
         ("file_name", JVal.str "raw/clip1.mp4"),
         ("bucket", JVal.str "bkt"),
         ("source", JVal.str "local"),
         ("asset_type", JVal.str "video"),
         ("paths", JVal.dict [("raw", JVal.str "gs://bkt/raw/clip1.mp4")])]
        "asset_id" = some (JVal.str s) ∧ ¬ s = "")
    ∧ ∃ t, lookup
        [("asset_id", JVal.str "clip1"),
         ("file_name", JVal.str "raw/clip1.mp4"),
         ("bucket", JVal.str "bkt"),
         ("source", JVal.str "local"),
         ("asset_type", JVal.str "video"),
         ("paths", JVal.dict [("raw", JVal.str "gs://bkt/raw/clip1.mp4")])]
        "asset_type" = some (JVal.str t) ∧ assetTypeEnum t := by
  refine normalizer_spec dataW payloadW rfl ?_ ?_ ?_
  · intro v h
    simp [dataW, lookup] at h
  · intro v h
    simp [dataW, lookup] at h
  · intro v h
    simp only [dataW, lookup, if_pos] at h
    refine ⟨"raw/clip1.mp4", by simpa using h.symm, by decide⟩

/-! ### C4: transcribe gating -/

theorem andThen_ok {α β : Type} (t : List Call) (a : α)
    (f : α → List Call × Except HTTPError β) :
    andThen (t, Except.ok a) f = (t ++ (f a).1, (f a).2) := by
  rcases hf : f a with ⟨t₂, r₂⟩
  rw [andThen, hf]

theorem andThen_error {α β : Type} (t : List Call) (e : HTTPError)
    (f : α → List Call × Except HTTPError β) :
    andThen (t, Except.error e) f = (t, Except.error e) := rfl

theorem call_service_success {urls : Urls} {oracle : Oracle} {e : String} {p : Dict}
    {u : String} {b : Dict} (hu : urls e = some u)
    (hor : oracle e p = CallResult.success b) :
    call_service urls oracle e p = ([⟨e, p, CallResult.success b⟩], Except.ok b) := by
  rw [call_service, hu, hor]

theorem call_service_failure {urls : Urls} {oracle : Oracle} {e : String} {p : Dict}
    {u : String} {st : Nat} {bd : String} (hu : urls e = some u)
    (hor : oracle e p = CallResult.failure st bd) :
    call_service urls oracle e p
      = ([⟨e, p, CallResult.failure st bd⟩], Except.error ⟨st, bd⟩) := by
  rw [call_service, hu, hor]

theorem isStrEq_true_iff (v : Option JVal) (s : String) :
    isStrEq v s = true ↔ v = some (JVal.str s) := by
  cases v with
  | none => simp [isStrEq]
  | some w =>
    cases w with
    | str t => simp [isStrEq]
    | num n => simp [isStrEq]
    | bool b0 => simp [isStrEq]
    | null => simp [isStrEq]
    | arr xs => simp [isStrEq]
    | dict kvs => simp [isStrEq]

theorem mem_call_service_trace {urls : Urls} {oracle : Oracle} {e : String} {p : Dict}
    {c : Call} (hc : c ∈ (call_service urls oracle e p).1) : c.endpoint = e := by
  rw [call_service] at hc
  rcases h1 : urls e with _ | u
  · rw [h1] at hc
    simp at hc
  · rw [h1] at hc
    dsimp only at hc
    rcases h2 : oracle e p with body | ⟨st, b⟩
    · rw [h2] at hc
      dsimp only at hc
      rw [List.mem_singleton] at hc
      subst hc
      rfl
    · rw [h2] at hc
      dsimp only at hc
      rw [List.mem_singleton] at hc
      subst hc
      rfl

theorem call_service_has_call {urls : Urls} (oracle : Oracle) (e : String) (p : Dict)
    {u : String} (hu : urls e = some u) :
    ∃ c ∈ (call_service urls oracle e p).1, c.endpoint = e := by
  rw [call_service, hu]
  rcases h2 : oracle e p with body | ⟨st, b⟩
  · exact ⟨⟨e, p, CallResult.success body⟩, List.mem_singleton.mpr rfl, rfl⟩
  · exact ⟨⟨e, p, CallResult.failure st b⟩, List.mem_singleton.mpr rfl, rfl⟩

theorem mem_andThen {α β : Type} (st : List Call × Except HTTPError α)
    (f : α → List Call × Except HTTPError β) (c : Call) :
    c ∈ (andThen st f).1 ↔ c ∈ st.1 ∨ ∃ a, st.2 = Except.ok a ∧ c ∈ (f a).1 := by
  obtain ⟨t, r⟩ := st
  cases r with
  | error e =>
    constructor
    · intro hc
      exact Or.inl hc
    · intro hc
      rcases hc with hc | ⟨a, ha, _⟩
      · exact hc
      · cases ha
  | ok a =>
    rw [andThen_ok]
    constructor
    · intro hc
      rcases List.mem_append.1 hc with hc | hc
      · exact Or.inl hc
      · exact Or.inr ⟨a, rfl, hc⟩
    · intro hc
      rcases hc with hc | ⟨a', ha', hc⟩
      · exact List.mem_append.2 (Or.inl hc)
      · injection ha' with ha'
        subst ha'
        exact List.mem_append.2 (Or.inr hc)

theorem step1_trace_endpoint {urls : Urls} {oracle : Oracle} {payload : Dict} {c : Call}
    (hc : c ∈ (runStep1 urls oracle payload).1) : c.endpoint = "transcode" := by
  rw [runStep1] at hc
  by_cases hg : transcodeGate payload = true
  · rw [if_pos hg] at hc
    rw [mem_andThen] at hc
    rcases hc with hc | ⟨a, _, hc⟩
    · exact mem_call_service_trace hc
    · dsimp only at hc
      rcases haud : audioStatusOf (deep_merge payload a) with e | astat <;>
        rw [haud] at hc <;> simp at hc
  · rw [if_neg hg] at hc
    simp at hc

theorem step3to5_no_transcribe {urls : Urls} {oracle : Oracle} {now : String}
    {payload m₂ : Dict} {c : Call}
    (hc : c ∈ (runStep3to5 urls oracle now payload m₂).1) : ¬ c.endpoint = "transcribe" := by
  rw [runStep3to5] at hc
  rw [mem_andThen] at hc
  rcases hc with hc | ⟨m₃, _, hc⟩
  · by_cases hg : transcodeGate payload = true
    · rw [if_pos hg] at hc
      rw [mem_andThen] at hc
      rcases hc with hc | ⟨fj, _, hc⟩
      · rw [mem_call_service_trace hc]
        decide
      · simp at hc
    · rw [if_neg hg] at hc
      simp at hc
  · rw [mem_andThen] at hc
    rcases hc with hc | ⟨ej, _, hc⟩
    · rw [mem_call_service_trace hc]
      decide
    · rw [mem_andThen] at hc
      rcases hc with hc | ⟨stored, _, hc⟩
      · rw [mem_call_service_trace hc]
        decide
      · simp at hc

theorem transcribe_mem_step2to5 {urls : Urls} (oracle : Oracle) (now : String)
    (payload : Dict) (ma : Dict × Option JVal)
    (hu : (urls "transcribe").isSome = true) :
    (∃ c ∈ (runStep2to5 urls oracle now payload ma).1, c.endpoint = "transcribe")
      ↔ shouldTranscribe payload ma.2 = true := by
  rw [runStep2to5]
  constructor
  · rintro ⟨c, hc, hce⟩
    by_cases hs : shouldTranscribe payload ma.2 = true
    · exact hs
    · exfalso
      rw [if_neg hs] at hc
      rw [mem_andThen] at hc
      rcases hc with hc | ⟨m₂, _, hc⟩
      · simp at hc
      · exact step3to5_no_transcribe hc hce
  · intro hs
    rw [if_pos hs]
    obtain ⟨u, hu'⟩ := Option.isSome_iff_exists.1 hu
    obtain ⟨c, hc, hce⟩ := call_service_has_call oracle "transcribe" ma.1 hu'
    refine ⟨c, ?_, hce⟩
    rw [mem_andThen]
    left
    rw [mem_andThen]
    exact Or.inl hc

theorem build_no_transcript (data payload : Dict)
    (hb : build_initial_payload data = Except.ok payload) :
    lookup payload "transcript" = none := by
  rw [build_initial_payload] at hb
  rcases hmu : lookup data "media_url" with _ | mu
  swap
  · rw [hmu] at hb
    dsimp only at hb
    rw [buildFromMediaUrl.eq_def] at hb
    cases mu with
    | str u =>
      dsimp only at hb
      rcases hp : parse_gs_url u.data with e | bo
      · rw [hp] at hb; cases hb
      · obtain ⟨bucket, object_name⟩ := bo
        rw [hp] at hb
        dsimp only at hb
        injection hb with hb
        subst hb
        by_cases hg : truthy ((lookup data "getty_metadata").getD (JVal.dict [])) = true
        · rw [if_pos hg]
          rfl
        · rw [if_neg hg]
          rfl
    | num n => cases hb
    | bool b0 => cases hb
    | null => cases hb
    | arr xs => cases hb
    | dict kvs => cases hb
  rw [hmu] at hb
  dsimp only at hb
  have hrest : ∀ hb' : buildRest data = Except.ok payload, lookup payload "transcript" = none := by
    intro hb'
    rw [buildRest] at hb'
    rcases hfnv : lookup data "file_name" with _ | fn <;>
      rcases hbk : lookup data "bucket" with _ | bk <;>
      rw [hfnv, hbk] at hb' <;> dsimp only at hb'
    case some.some =>
      cases fn with
      | str f =>
        injection hb' with hb'
        subst hb'
        rfl
      | num n => cases hb'
      | bool b0 => cases hb'
      | null => cases hb'
      | arr xs => cases hb'
      | dict kvs => cases hb'
    all_goals
      rcases hurl : lookup data "url" with _ | u <;> rw [hurl] at hb' <;> cases hb' <;> rfl
  rcases hmb : lookup data "media_bytes" with _ | mb
  · rw [hmb] at hb
    exact hrest hb
  · rw [hmb] at hb
    dsimp only at hb
    by_cases hsrc : isStrEq (lookup data "source") "getty" = true
    · rw [if_pos hsrc] at hb
      rcases hmtv : lookup data "media_type" with _ | mt
      · rw [hmtv] at hb
        cases hb
      · rw [hmtv] at hb
        injection hb with hb
        subst hb
        rfl
    · rw [if_neg hsrc] at hb
      rcases hmtv : lookup data "media_type" with _ | mt
      · rw [hmtv] at hb
        exact hrest hb
      · rw [hmtv] at hb
        injection hb with hb
        subst hb
        rfl

theorem skip_transcribe_run (urls : Urls) (oracle : Oracle) (now : String)
    (data payload tr fr er so : Dict) (s : String)
    (hurls : ∀ e, (urls e).isSome = true)
    (hbuild : build_initial_payload data = Except.ok payload)
    (hat : lookup payload "asset_type" = some (JVal.str "video"))
    (hmb : lookup payload "media_bytes" = none)
    (hskip : s = "no_audio_present" ∨ s = "audio_extraction_failed")
    (htr : oracle "transcode" payload = CallResult.success tr)
    (haudio : audioStatusOf (deep_merge payload tr)
      = Except.ok (some (JVal.str s)))
    (htrn : lookup tr "transcript" = none)
    (hfr : oracle "sample" (deep_merge payload tr) = CallResult.success fr)
    (hfrn : lookup fr "transcript" = none)
    (her : oracle "enrich" (deep_merge (deep_merge payload tr) fr) = CallResult.success er)
    (hso : oracle "store"
        (setKey (deep_merge (deep_merge payload tr) fr) "analysis" (JVal.dict er))
      = CallResult.success so) :
    run_all urls oracle now data
      = ([⟨"transcode", payload, CallResult.success tr⟩,
          ⟨"sample", deep_merge payload tr, CallResult.success fr⟩,
          ⟨"enrich", deep_merge (deep_merge payload tr) fr, CallResult.success er⟩,
          ⟨"store", setKey (deep_merge (deep_merge payload tr) fr) "analysis" (JVal.dict er),
            CallResult.success so⟩],
         Except.ok ⟨"complete", now, so⟩)
    ∧ lookup (setKey (deep_merge (deep_merge payload tr) fr) "analysis" (JVal.dict er))
        "transcript" = none := by
  obtain ⟨ut, hut⟩ := Option.isSome_iff_exists.1 (hurls "transcode")
  obtain ⟨us, hus⟩ := Option.isSome_iff_exists.1 (hurls "sample")
  obtain ⟨ue, hue⟩ := Option.isSome_iff_exists.1 (hurls "enrich")
  obtain ⟨uo, huo⟩ := Option.isSome_iff_exists.1 (hurls "store")
  have hgate : transcodeGate payload = true := by
    rw [transcodeGate, hat, hmb]
    rfl
  have hs2 : shouldTranscribe payload (some (JVal.str s)) = false := by
    rcases hskip with h | h <;>
      (subst h; rw [shouldTranscribe, hat]; rfl)
  have h1 : runStep1 urls oracle payload
      = ([⟨"transcode", payload, CallResult.success tr⟩],
         Except.ok (deep_merge payload tr, some (JVal.str s))) := by
    simp [runStep1, hgate, call_service_success hut htr, andThen_ok, haudio]
  have h35 : runStep3to5 urls oracle now payload (deep_merge payload tr)
      = ([⟨"sample", deep_merge payload tr, CallResult.success fr⟩,
          ⟨"enrich", deep_merge (deep_merge payload tr) fr, CallResult.success er⟩,
          ⟨"store", setKey (deep_merge (deep_merge payload tr) fr) "analysis" (JVal.dict er),
            CallResult.success so⟩],
         Except.ok ⟨"complete", now, so⟩) := by
    simp [runStep3to5, hgate, call_service_success hus hfr, call_service_success hue her,
      call_service_success huo hso, andThen_ok]
  have h25 : runStep2to5 urls oracle now payload
        (deep_merge payload tr, some (JVal.str s))
      = ([⟨"sample", deep_merge payload tr, CallResult.success fr⟩,
          ⟨"enrich", deep_merge (deep_merge payload tr) fr, CallResult.success er⟩,
          ⟨"store", setKey (deep_merge (deep_merge payload tr) fr) "analysis" (JVal.dict er),
            CallResult.success so⟩],
         Except.ok ⟨"complete", now, so⟩) := by
    simp [runStep2to5, hs2, andThen_ok, h35]
  constructor
  · rw [run_all, hbuild]
    simp [h1, andThen_ok, h25]
  · rw [lookup_setKey_ne _ _ _ _ (by decide),
      lookup_deep_merge_of_right_none _ hfrn,
      lookup_deep_merge_of_right_none _ htrn]
    exact build_no_transcript data payload hbuild

theorem call_service_ok_inv {urls : Urls} {oracle : Oracle} {e : String} {p : Dict}
    {t : List Call} {b : Dict} (h : call_service urls oracle e p = (t, Except.ok b)) :
    oracle e p = CallResult.success b := by
  rw [call_service] at h
  rcases h1 : urls e with _ | u <;> rw [h1] at h
  · simp at h
  · rcases h2 : oracle e p with body | ⟨st, bd⟩ <;> rw [h2] at h
    · rw [Prod.mk.injEq] at h
      injection h.2 with hbb
      rw [← hbb]
    · simp at h

theorem runStep1_ok_inv {urls : Urls} {oracle : Oracle} {payload : Dict} {ma : Dict × Option JVal}
    (h : (runStep1 urls oracle payload).2 = Except.ok ma) :
    (transcodeGate payload = false ∧ ma = (payload, none))
    ∨ (transcodeGate payload = true
       ∧ ∃ tr, oracle "transcode" payload = CallResult.success tr
          ∧ audioStatusOf (deep_merge payload tr) = Except.ok ma.2
          ∧ ma.1 = deep_merge payload tr) := by
  rw [runStep1] at h
  by_cases hg : transcodeGate payload = true
  · rw [if_pos hg] at h
    rcases hcs : call_service urls oracle "transcode" payload with ⟨t₁, r₁⟩
    rw [hcs] at h
    cases r₁ with
    | error e =>
      rw [andThen_error] at h
      simp at h
    | ok tj =>
      rw [andThen_ok] at h
      dsimp only at h
      rcases haud : audioStatusOf (deep_merge payload tj) with e | astat <;> rw [haud] at h
      · simp at h
      · dsimp only at h
        injection h with h
        right
        refine ⟨hg, tj, call_service_ok_inv hcs, ?_, ?_⟩
        · rw [← h]
          exact haud
        · rw [← h]
  · rw [if_neg hg] at h
    dsimp only at h
    injection h with h
    left
    rw [Bool.not_eq_true] at hg
    exact ⟨hg, h.symm⟩

theorem step1_rhs_of_shouldTranscribe {urls : Urls} {oracle : Oracle} {payload : Dict}
    {ma : Dict × Option JVal}
    (hma : (runStep1 urls oracle payload).2 = Except.ok ma)
    (hs : shouldTranscribe payload ma.2 = true) :
    isStrEq (lookup payload "asset_type") "audio" = true
    ∨ (isStrEq (lookup payload "asset_type") "video" = true
       ∧ lookup payload "media_bytes" = none
       ∧ ∃ tr, oracle "transcode" payload = CallResult.success tr
          ∧ audioStatusOf (deep_merge payload tr)
            = Except.ok (some (JVal.str "extracted"))) := by
  rcases runStep1_ok_inv hma with ⟨hgf, hmav⟩ | ⟨hgt, tr, htr, haud, hm1⟩
  · subst hmav
    by_cases ha : isStrEq (lookup payload "asset_type") "audio" = true
    · exact Or.inl ha
    · exfalso
      have hfalse : shouldTranscribe payload none = false := by
        rw [shouldTranscribe, if_neg ha]
        by_cases hvv : isStrEq (lookup payload "asset_type") "video" = true
        · rw [if_pos hvv]
          rfl
        · rw [if_neg hvv]
      rw [hfalse] at hs
      cases hs
  · right
    rw [transcodeGate, Bool.and_eq_true] at hgt
    have hvid := hgt.1
    have hmb := Option.isNone_iff_eq_none.1 hgt.2
    have hlook := (isStrEq_true_iff _ _).1 hvid
    have ha : isStrEq (lookup payload "asset_type") "audio" = false := by
      rw [hlook]
      rfl
    have hext : isStrEq ma.2 "extracted" = true := by
      rw [shouldTranscribe] at hs
      rw [ha] at hs
      rw [hvid] at hs
      simpa using hs
    have hma2 := (isStrEq_true_iff _ _).1 hext
    refine ⟨hvid, hmb, tr, htr, ?_⟩
    rw [← hma2]
    exact haud

theorem step1_of_rhs {urls : Urls} {oracle : Oracle} {payload : Dict}
    (hu : ∀ e, (urls e).isSome = true)
    (hcond : isStrEq (lookup payload "asset_type") "audio" = true
      ∨ (isStrEq (lookup payload "asset_type") "video" = true
         ∧ lookup payload "media_bytes" = none
         ∧ ∃ tr, oracle "transcode" payload = CallResult.success tr
            ∧ audioStatusOf (deep_merge payload tr)
              = Except.ok (some (JVal.str "extracted")))) :
    ∃ ma, (runStep1 urls oracle payload).2 = Except.ok ma
      ∧ shouldTranscribe payload ma.2 = true := by
  rcases hcond with ha | ⟨hv, hmb, tr, htr, haud⟩
  · have hlook := (isStrEq_true_iff _ _).1 ha
    have hg : ¬ transcodeGate payload = true := by
      rw [transcodeGate, hlook]
      simp [isStrEq]
    refine ⟨(payload, none), ?_, ?_⟩
    · rw [runStep1, if_neg hg]
    · simp [shouldTranscribe, ha]
  · have hg : transcodeGate payload = true := by
      rw [transcodeGate, hv, hmb]
      rfl
    obtain ⟨ut, hut⟩ := Option.isSome_iff_exists.1 (hu "transcode")
    refine ⟨(deep_merge payload tr, some (JVal.str "extracted")), ?_, ?_⟩
    · rw [runStep1, if_pos hg, call_service_success hut htr, andThen_ok]
      dsimp only
      rw [haud]
    · have hlook := (isStrEq_true_iff _ _).1 hv
      have ha : isStrEq (lookup payload "asset_type") "audio" = false := by
        rw [hlook]
        rfl
      rw [shouldTranscribe, if_neg (by simp [ha]), if_pos hv]
      rfl

theorem transcribe_invoked_iff (urls : Urls) (oracle : Oracle) (now : String) (data : Dict)
    (hu : ∀ e, (urls e).isSome = true) :
    (∃ c ∈ (run_all urls oracle now data).1, c.endpoint = "transcribe")
    ↔ ∃ payload, build_initial_payload data = Except.ok payload ∧
        (isStrEq (lookup payload "asset_type") "audio" = true
         ∨ (isStrEq (lookup payload "asset_type") "video" = true
            ∧ lookup payload "media_bytes" = none
            ∧ ∃ tr, oracle "transcode" payload = CallResult.success tr
               ∧ audioStatusOf (deep_merge payload tr)
                 = Except.ok (some (JVal.str "extracted")))) := by
  rw [run_all]
  rcases hb : build_initial_payload data with e | payload
  · constructor
    · rintro ⟨c, hc, _⟩
      simp at hc
    · rintro ⟨p, hp, _⟩
      cases hp
  · dsimp only
    constructor
    · rintro ⟨c, hc, hce⟩
      rw [mem_andThen] at hc
      rcases hc with hc | ⟨ma, hma, hc⟩
      · rw [step1_trace_endpoint hc] at hce
        exact absurd hce (by decide)
      · have hs := (transcribe_mem_step2to5 oracle now payload ma (hu "transcribe")).1 ⟨c, hc, hce⟩
        exact ⟨payload, rfl, step1_rhs_of_shouldTranscribe hma hs⟩
    · rintro ⟨p, hp, hcond⟩
      injection hp with hp
      subst hp
      obtain ⟨ma, hma, hs⟩ := step1_of_rhs hu hcond
      obtain ⟨c, hc, hce⟩ := (transcribe_mem_step2to5 oracle now payload ma (hu "transcribe")).2 hs
      refine ⟨c, ?_, hce⟩
      rw [mem_andThen]
      exact Or.inr ⟨ma, hma, hc⟩

/-- C4: on a video asset whose transcode stage reports either skip outcome
    `status.audio = "no_audio_present"` or
    `status.audio = "audio_extraction_failed"`, the Transcribe stage is
    never invoked, the record passed to Store carries no `transcript`
    field, and the pipeline completes with status "complete"; and in full
    generality (with all stage URLs configured) Transcribe is invoked
    exactly when the asset type is audio, or the asset type is video and
    the transcode stage ran and reported `status.audio = "extracted"`. -/
theorem transcribe_gating_spec :
    (∀ (urls : Urls) (oracle : Oracle) (now : String) (data payload tr fr er so : Dict)
        (s : String),
        (∀ e, (urls e).isSome = true) →
        build_initial_payload data = Except.ok payload →
        lookup payload "asset_type" = some (JVal.str "video") →
        lookup payload "media_bytes" = none →
        (s = "no_audio_present" ∨ s = "audio_extraction_failed") →
        oracle "transcode" payload = CallResult.success tr →
        audioStatusOf (deep_merge payload tr) = Except.ok (some (JVal.str s)) →
        lookup tr "transcript" = none →
        oracle "sample" (deep_merge payload tr) = CallResult.success fr →
        lookup fr "transcript" = none →
        oracle "enrich" (deep_merge (deep_merge payload tr) fr) = CallResult.success er →
        oracle "store" (setKey (deep_merge (deep_merge payload tr) fr) "analysis" (JVal.dict er))
          = CallResult.success so →
        run_all urls oracle now data
          = ([⟨"transcode", payload, CallResult.success tr⟩,
              ⟨"sample", deep_merge payload tr, CallResult.success fr⟩,
              ⟨"enrich", deep_merge (deep_merge payload tr) fr, CallResult.success er⟩,
              ⟨"store", setKey (deep_merge (deep_merge payload tr) fr) "analysis" (JVal.dict er),
                CallResult.success so⟩],
             Except.ok ⟨"complete", now, so⟩)
        ∧ lookup (setKey (deep_merge (deep_merge payload tr) fr) "analysis" (JVal.dict er))
            "transcript" = none)
    ∧ ∀ (urls : Urls) (oracle : Oracle) (now : String) (data : Dict),
        (∀ e, (urls e).isSome = true) →
        ((∃ c ∈ (run_all urls oracle now data).1, c.endpoint = "transcribe")
          ↔ ∃ payload, build_initial_payload data = Except.ok payload ∧
              (isStrEq (lookup payload "asset_type") "audio" = true
               ∨ (isStrEq (lookup payload "asset_type") "video" = true
                  ∧ lookup payload "media_bytes" = none
                  ∧ ∃ tr, oracle "transcode" payload = CallResult.success tr
                     ∧ audioStatusOf (deep_merge payload tr)
                       = Except.ok (some (JVal.str "extracted"))))) :=
  ⟨fun urls oracle now data payload tr fr er so s hu hb hat hmb hskip htr haud htrn hfr hfrn
      her hso =>
    skip_transcribe_run urls oracle now data payload tr fr er so s hu hb hat hmb hskip htr haud
      htrn hfr hfrn her hso,
   fun urls oracle now data hu => transcribe_invoked_iff urls oracle now data hu⟩

/-- The transcode response of the no-audio witness run. -/
def trW : Dict := [("status", JVal.dict [("audio", JVal.str "no_audio_present")])]

/-- A generic stage response for the witness run. -/
def stageRespW : Dict := [("k", JVal.str "v")]

/-- The witness oracle: transcode reports no audio, every other stage
    answers with a fixed successful body. -/
def oracleNoAudioW : Oracle :=
  fun e _ => if e = "transcode" then CallResult.success trW else CallResult.success stageRespW

/-- The transcode response of the failed-extraction witness run. -/
def trFailW : Dict := [("status", JVal.dict [("audio", JVal.str "audio_extraction_failed")])]

/-- The witness oracle for the failed-extraction run: transcode reports
    that audio extraction failed, every other stage answers with a fixed
    successful body. -/
def oracleAudioFailW : Oracle :=
  fun e _ => if e = "transcode" then CallResult.success trFailW else CallResult.success stageRespW

/-- Witness for C4: two concrete video runs, one with `no_audio_present`
    and one with `audio_extraction_failed`: in both, transcribe never
    appears in the trace, the stored record has no transcript, and the run
    completes. -/
theorem transcribe_gating_spec_witness :
    (run_all urlsW oracleNoAudioW "T" dataW
        = ([⟨"transcode", payloadW, CallResult.success trW⟩,
            ⟨"sample", deep_merge payloadW trW, CallResult.success stageRespW⟩,
            ⟨"enrich", deep_merge (deep_merge payloadW trW) stageRespW,
              CallResult.success stageRespW⟩,
            ⟨"store",
              setKey (deep_merge (deep_merge payloadW trW) stageRespW) "analysis"
                (JVal.dict stageRespW),
              CallResult.success stageRespW⟩],
           Except.ok ⟨"complete", "T", stageRespW⟩)
      ∧ lookup
          (setKey (deep_merge (deep_merge payloadW trW) stageRespW) "analysis"
            (JVal.dict stageRespW))
          "transcript" = none)
    ∧ (run_all urlsW oracleAudioFailW "T" dataW
        = ([⟨"transcode", payloadW, CallResult.success trFailW⟩,
            ⟨"sample", deep_merge payloadW trFailW, CallResult.success stageRespW⟩,
            ⟨"enrich", deep_merge (deep_merge payloadW trFailW) stageRespW,
              CallResult.success stageRespW⟩,
            ⟨"store",
              setKey (deep_merge (deep_merge payloadW trFailW) stageRespW) "analysis"
                (JVal.dict stageRespW),
              CallResult.success stageRespW⟩],
           Except.ok ⟨"complete", "T", stageRespW⟩)
      ∧ lookup
          (setKey (deep_merge (deep_merge payloadW trFailW) stageRespW) "analysis"
            (JVal.dict stageRespW))
          "transcript" = none)
    ∧ (¬ ∃ c ∈ (run_all urlsW oracleNoAudioW "T" dataW).1, c.endpoint = "transcribe")
    ∧ (¬ ∃ c ∈ (run_all urlsW oracleAudioFailW "T" dataW).1, c.endpoint = "transcribe") := by
  refine ⟨?_, ?_, ?_, ?_⟩
  · exact transcribe_gating_spec.1 urlsW oracleNoAudioW "T" dataW payloadW trW stageRespW
      stageRespW stageRespW "no_audio_present" (fun e => rfl) rfl rfl rfl (Or.inl rfl)
      rfl rfl rfl rfl rfl rfl rfl
  · exact transcribe_gating_spec.1 urlsW oracleAudioFailW "T" dataW payloadW trFailW stageRespW
      stageRespW stageRespW "audio_extraction_failed" (fun e => rfl) rfl rfl rfl (Or.inr rfl)
      rfl rfl rfl rfl rfl rfl rfl
  · intro hmem
    have h := (transcribe_gating_spec.2 urlsW oracleNoAudioW "T" dataW (fun e => rfl)).1 hmem
    rcases h with ⟨p, hp, hcond⟩
    rw [show build_initial_payload dataW = Except.ok payloadW from rfl] at hp
    injection hp with hp
    subst hp
    rcases hcond with ha | ⟨hv, hmb, tr, htr, haud⟩
    · exact absurd ha (by decide)
    · rw [show oracleNoAudioW "transcode" payloadW = CallResult.success trW from rfl] at htr
      injection htr with htr
      subst htr
      rw [show audioStatusOf (deep_merge payloadW trW)
          = Except.ok (some (JVal.str "no_audio_present")) from rfl] at haud
      simp at haud
  · intro hmem
    have h := (transcribe_gating_spec.2 urlsW oracleAudioFailW "T" dataW (fun e => rfl)).1 hmem
    rcases h with ⟨p, hp, hcond⟩
    rw [show build_initial_payload dataW = Except.ok payloadW from rfl] at hp
    injection hp with hp
    subst hp
    rcases hcond with ha | ⟨hv, hmb, tr, htr, haud⟩
    · exact absurd ha (by decide)
    · rw [show oracleAudioFailW "transcode" payloadW = CallResult.success trFailW from rfl] at htr
      injection htr with htr
      subst htr
      rw [show audioStatusOf (deep_merge payloadW trFailW)
          = Except.ok (some (JVal.str "audio_extraction_failed")) from rfl] at haud
      simp at haud

end ClippyUppy
